import Mathlib

/-!
Verification of the comparison engine of `src/comparator.py`
(PUML/JSON UML class-diagram comparison).

Strings from the Python code are modelled as `List Char`; Python floats
are modelled as `ℚ` (every arithmetic operation used by the code is exact
at the inputs we evaluate, and the proved inequalities are at a safe
distance from any rounding boundary).  Python `dict`s are modelled as
association lists with insert-or-overwrite-in-place semantics, and Python
`set`s as lists with membership-guarded insertion.
-/

set_option autoImplicit false

namespace Comparator

/-- ASCII whitespace, matching the characters Python's `str.strip()` and the
regex class `\s` treat as whitespace for the inputs in scope. -/
def isSpace (c : Char) : Bool :=
  c == ' ' || c == '\t' || c == '\n' || c == '\r' || c == Char.ofNat 11 || c == Char.ofNat 12

/-- Membership in the visibility-marker set `"+-#~"` of `normalize_attribute`. -/
def isVis (c : Char) : Bool :=
  c == '+' || c == '-' || c == '#' || c == '~'

/-- Python `str.lstrip()` (left whitespace trim). -/
def lstrip (l : List Char) : List Char := l.dropWhile isSpace

/-- Right whitespace trim. -/
def rstrip (l : List Char) : List Char := (l.reverse.dropWhile isSpace).reverse

/-- Python `str.strip()`: trim whitespace on both ends. -/
def strip (l : List Char) : List Char := rstrip (lstrip l)

/-- Split on the first `':'`, as Python's `attr.split(":", 1)` when the
separator occurs; `none` models the `":" in attr` test failing. -/
def splitColon : List Char → Option (List Char × List Char)
  | [] => none
  | c :: rest =>
    if c = ':' then some ([], rest)
    else (splitColon rest).map (fun p => (c :: p.1, p.2))

/-- The leading-visibility step of `normalize_attribute` (lines 100-104):
if the (already stripped) string starts with a marker from `"+-#~"`, consume
it and strip the remainder; otherwise the visibility defaults to `'-'`. -/
def visSplit (attr1 : List Char) : Char × List Char :=
  match attr1 with
  | c :: rest => if isVis c then (c, strip rest) else ('-', attr1)
  | [] => ('-', [])

/-- The rebuilding step of `normalize_attribute` (lines 106-109): split at the
first colon into name/type and rejoin as `"V name: type"`, or return
`"V attr"` when no colon is present. -/
def renderAttr (vp : Char × List Char) : List Char :=
  match splitColon vp.2 with
  | some nt => vp.1 :: ' ' :: (strip nt.1 ++ ':' :: ' ' :: strip nt.2)
  | none => vp.1 :: ' ' :: vp.2

/-- `normalize_attribute` of `src/comparator.py` (lines 98-109): strip the
string, consume a leading visibility marker (default `'-'`), and if a colon
remains split at the first colon and rebuild as `"V name: type"`, else
return `"V attr"`. -/
def normalize_attribute (attr0 : List Char) : List Char :=
  renderAttr (visSplit (strip attr0))

-- ### Whitespace-trimming toolkit

theorem dropWhile_append_of_all {p : Char → Bool} {xs : List Char} (ys : List Char)
    (h : ∀ c ∈ xs, p c = true) :
    List.dropWhile p (xs ++ ys) = List.dropWhile p ys := by
  induction xs with
  | nil => rfl
  | cons a l ih =>
    have ha : p a = true := h a (List.mem_cons_self a l)
    simpa [List.dropWhile_cons, ha] using ih (fun c hc => h c (List.mem_cons_of_mem a hc))

theorem dropWhile_cons_of_neg {p : Char → Bool} {c : Char} (l : List Char)
    (h : ¬ p c = true) : List.dropWhile p (c :: l) = c :: l := by
  simp [List.dropWhile_cons, h]

theorem lstrip_cons_of_nonspace {c : Char} (l : List Char) (h : isSpace c = false) :
    lstrip (c :: l) = c :: l := by
  simp [lstrip, List.dropWhile_cons, h]

theorem lstrip_cons_of_space {c : Char} (l : List Char) (h : isSpace c = true) :
    lstrip (c :: l) = lstrip l := by
  simp [lstrip, List.dropWhile_cons, h]

theorem rstrip_append_of_nonspace (l : List Char) {c : Char} (h : isSpace c = false) :
    rstrip (l ++ [c]) = l ++ [c] := by
  simp [rstrip, List.dropWhile_cons, h]

theorem rstrip_append_of_space (l : List Char) {c : Char} (h : isSpace c = true) :
    rstrip (l ++ [c]) = rstrip l := by
  simp [rstrip, List.dropWhile_cons, h]

theorem rstrip_nil : rstrip [] = [] := rfl

/-- A list is `Trimmed` when it has no whitespace at either end. -/
def Trimmed (l : List Char) : Prop :=
  (∀ c t, l = c :: t → isSpace c = false) ∧ (∀ t c, l = t ++ [c] → isSpace c = false)

theorem trimmed_nil : Trimmed [] := by
  constructor
  · intro _ _ h
    cases h
  · intro t _ h
    cases t <;> cases h

theorem lstrip_of_trimmed {l : List Char} (h : Trimmed l) : lstrip l = l := by
  cases l with
  | nil => rfl
  | cons c t => exact lstrip_cons_of_nonspace t (h.1 c t rfl)

theorem rstrip_of_trimmed {l : List Char} (h : Trimmed l) : rstrip l = l := by
  rcases List.eq_nil_or_concat l with rfl | ⟨t, c, hc⟩
  · rfl
  · rw [List.concat_eq_append] at hc
    subst hc
    exact rstrip_append_of_nonspace t (h.2 t c rfl)

theorem strip_of_trimmed {l : List Char} (h : Trimmed l) : strip l = l := by
  rw [strip, lstrip_of_trimmed h, rstrip_of_trimmed h]

theorem head_false_of_dropWhile {p : Char → Bool} :
    ∀ (l : List Char) {c : Char} {t : List Char},
      List.dropWhile p l = c :: t → p c = false
  | [], _, _, h => by cases h
  | a :: l, c, t, h => by
    by_cases hp : p a = true
    · rw [List.dropWhile_cons, if_pos hp] at h
      exact head_false_of_dropWhile l h
    · rw [List.dropWhile_cons, if_neg hp] at h
      cases h
      exact Bool.not_eq_true _ ▸ (by simpa using hp)

theorem dropWhile_sublist_ext {p : Char → Bool} :
    ∀ (l : List Char), ∃ pre, l = pre ++ List.dropWhile p l ∧ ∀ c ∈ pre, p c = true
  | [] => ⟨[], rfl, by simp⟩
  | a :: l => by
    by_cases hp : p a = true
    · obtain ⟨pre, h1, h2⟩ := dropWhile_sublist_ext (p := p) l
      refine ⟨a :: pre, ?_, ?_⟩
      · rw [List.dropWhile_cons, if_pos hp]; simpa using h1
      · intro c hc
        rcases List.mem_cons.mp hc with rfl | hc
        · exact hp
        · exact h2 c hc
    · exact ⟨[], by rw [List.dropWhile_cons, if_neg hp]; rfl, by simp⟩

theorem trimmed_strip (l : List Char) : Trimmed (strip l) := by
  constructor
  · intro c t h
    -- head of `rstrip (lstrip l)`; `rstrip x` is a left part of `x`, whose head
    -- (when the result is nonempty) fails `isSpace` by the dropWhile property.
    have hx : (strip l).reverse = List.dropWhile isSpace (lstrip l).reverse := by
      simp [strip, rstrip]
    obtain ⟨pre, hpre, _⟩ := dropWhile_sublist_ext (p := isSpace) (lstrip l).reverse
    have hlst : lstrip l = (strip l) ++ pre.reverse := by
      have := congrArg List.reverse hpre
      simpa [hx] using this
    rw [h] at hlst
    exact head_false_of_dropWhile (l := l) (by
      show List.dropWhile isSpace l = c :: (t ++ pre.reverse)
      have h2 : lstrip l = c :: (t ++ pre.reverse) := by simpa using hlst
      simpa [lstrip] using h2)
  · intro t c h
    have h2 : (strip l).reverse = List.dropWhile isSpace (lstrip l).reverse := by
      simp [strip, rstrip]
    rw [h] at h2
    exact head_false_of_dropWhile (l := (lstrip l).reverse) (by simpa using h2.symm)

theorem strip_idem (l : List Char) : strip (strip l) = strip l :=
  strip_of_trimmed (trimmed_strip l)

theorem strip_cons_space (l : List Char) : strip (' ' :: l) = strip l := by
  rw [strip, strip, lstrip_cons_of_space l (by decide)]

theorem mem_lstrip {c : Char} {l : List Char} (h : c ∈ lstrip l) : c ∈ l := by
  obtain ⟨pre, hpre, _⟩ := dropWhile_sublist_ext (p := isSpace) l
  rw [hpre]
  exact List.mem_append_right _ h

theorem mem_strip {c : Char} {l : List Char} (h : c ∈ strip l) : c ∈ l := by
  apply mem_lstrip
  obtain ⟨pre, hpre, _⟩ := dropWhile_sublist_ext (p := isSpace) (lstrip l).reverse
  have : (lstrip l).reverse = pre ++ (strip l).reverse := by
    simpa [strip, rstrip] using hpre
  have h2 : lstrip l = strip l ++ pre.reverse := by
    have := congrArg List.reverse this
    simpa using this
  rw [h2]
  exact List.mem_append_left _ h

theorem dropWhile_append_split (p : Char → Bool) (xs ys : List Char) :
    List.dropWhile p (xs ++ ys) =
      if List.dropWhile p xs = [] then List.dropWhile p ys
      else List.dropWhile p xs ++ ys := by
  induction xs with
  | nil => simp
  | cons a t ih =>
    by_cases hp : p a = true
    · simpa [List.dropWhile_cons, hp] using ih
    · simp [List.dropWhile_cons, hp]

theorem rstrip_cons_of_nonspace {c : Char} (l : List Char) (h : isSpace c = false) :
    rstrip (c :: l) = c :: rstrip l := by
  have := dropWhile_append_split isSpace l.reverse [c]
  by_cases he : List.dropWhile isSpace l.reverse = []
  · simp only [rstrip, List.reverse_cons, this, he, if_pos he,
      List.dropWhile_cons, h]
    simp [rstrip, he]
  · simp only [rstrip, List.reverse_cons, this, if_neg he]
    simp

theorem strip_cons_of_nonspace {c : Char} (l : List Char) (h : isSpace c = false) :
    strip (c :: l) = c :: rstrip l := by
  rw [strip, lstrip_cons_of_nonspace l h, rstrip_cons_of_nonspace l h]

theorem lstrip_append_trimmed {n : List Char} (z : List Char) {d : Char}
    (hn : Trimmed n) (hd : isSpace d = false) :
    lstrip (n ++ d :: z) = n ++ d :: z := by
  have hln : List.dropWhile isSpace n = n := lstrip_of_trimmed hn
  rw [lstrip, dropWhile_append_split, hln]
  by_cases he : n = []
  · subst he
    simp [List.dropWhile_cons, hd]
  · rw [if_neg he]

-- ### `splitColon` characterization

theorem splitColon_eq_none {l : List Char} : splitColon l = none ↔ ':' ∉ l := by
  induction l with
  | nil => simp [splitColon]
  | cons c t ih =>
    by_cases hc : c = ':'
    · subst hc; simp [splitColon]
    · simp [splitColon, hc, Option.map_eq_none', ih, Ne.symm hc]

theorem splitColon_append {n : List Char} (z : List Char) (h : ':' ∉ n) :
    splitColon (n ++ ':' :: z) = some (n, z) := by
  induction n with
  | nil => simp [splitColon]
  | cons c t ih =>
    have hc : ¬ c = ':' := fun he => h (he ▸ List.mem_cons_self c t)
    have ht : ':' ∉ t := fun he => h (List.mem_cons_of_mem c he)
    simp [splitColon, hc, ih ht]

theorem splitColon_some {l n t : List Char} (h : splitColon l = some (n, t)) :
    l = n ++ ':' :: t ∧ ':' ∉ n := by
  induction l generalizing n t with
  | nil => cases h
  | cons c r ih =>
    by_cases hc : c = ':'
    · subst hc
      rw [splitColon, if_pos rfl] at h
      cases h
      exact ⟨rfl, by simp⟩
    · rw [splitColon, if_neg hc] at h
      rcases Option.map_eq_some'.mp h with ⟨⟨n', t'⟩, hs, he⟩
      cases he
      obtain ⟨h1, h2⟩ := ih hs
      refine ⟨by rw [h1]; rfl, ?_⟩
      intro hm
      rcases List.mem_cons.mp hm with he | hm
      · exact hc he.symm
      · exact h2 hm

-- ### Idempotence of the attribute normalizer (claim C9)

theorem isVis_nonspace {c : Char} (h : isVis c = true) : isSpace c = false := by
  have : c = '+' ∨ c = '-' ∨ c = '#' ∨ c = '~' := by
    simpa [isVis, beq_iff_eq, or_assoc] using h
  rcases this with rfl | rfl | rfl | rfl <;> decide

theorem trimmed_concat_cases {l : List Char} (h : Trimmed l) :
    l = [] ∨ ∃ l₀ c, l = l₀ ++ [c] ∧ isSpace c = false := by
  rcases List.eq_nil_or_concat l with rfl | ⟨t, c, hc⟩
  · exact Or.inl rfl
  · rw [List.concat_eq_append] at hc
    exact Or.inr ⟨t, c, hc, h.2 t c hc⟩

/-- Shape of every output of `normalize_attribute`: a visibility marker, one
space, and either a trimmed colon-free remainder, or a trimmed colon-free
name followed by `": "` and a trimmed type. -/
def NormalizedShape (r : List Char) : Prop :=
  ∃ v body, r = v :: ' ' :: body ∧ isVis v = true ∧
    ((∃ n t, body = n ++ ':' :: ' ' :: t ∧ Trimmed n ∧ ':' ∉ n ∧ Trimmed t) ∨
      (Trimmed body ∧ ':' ∉ body))

theorem visSplit_vis (a : List Char) : isVis (visSplit a).1 = true := by
  cases a with
  | nil => decide
  | cons c rest =>
    by_cases hc : isVis c = true
    · simp [visSplit, hc]
    · rw [visSplit]
      simp only [if_neg hc]
      decide

theorem visSplit_trimmed {a : List Char} (ha : Trimmed a) : Trimmed (visSplit a).2 := by
  cases a with
  | nil => exact trimmed_nil
  | cons c rest =>
    by_cases hc : isVis c = true
    · simpa [visSplit, hc] using trimmed_strip rest
    · simpa [visSplit, hc] using ha

theorem renderAttr_shape {vp : Char × List Char} (hv : isVis vp.1 = true)
    (ht : Trimmed vp.2) : NormalizedShape (renderAttr vp) := by
  rw [renderAttr]
  cases hsplit : splitColon vp.2 with
  | some nt =>
    obtain ⟨n0, t0⟩ := nt
    obtain ⟨_, hn0⟩ := splitColon_some hsplit
    exact ⟨vp.1, _, rfl, hv, Or.inl ⟨strip n0, strip t0, rfl, trimmed_strip n0,
      fun hm => hn0 (mem_strip hm), trimmed_strip t0⟩⟩
  | none =>
    exact ⟨vp.1, vp.2, rfl, hv, Or.inr ⟨ht, splitColon_eq_none.mp hsplit⟩⟩

theorem normalize_attribute_shape (s : List Char) :
    NormalizedShape (normalize_attribute s) :=
  renderAttr_shape (visSplit_vis (strip s)) (visSplit_trimmed (trimmed_strip s))

theorem visSplit_cons_vis {v : Char} (rest : List Char) (hv : isVis v = true) :
    visSplit (v :: rest) = (v, strip rest) := by
  rw [visSplit]
  simp [hv]

theorem normalize_attribute_of_shape {r : List Char} (h : NormalizedShape r) :
    normalize_attribute r = r := by
  obtain ⟨v, body, rfl, hv, hbody⟩ := h
  have hvs : isSpace v = false := isVis_nonspace hv
  rcases hbody with ⟨n, t, rfl, hn, hnc, ht⟩ | ⟨hb, hbc⟩
  · -- name-colon-type shape
    rcases trimmed_concat_cases ht with rfl | ⟨t₀, c, rfl, hc⟩
    · -- empty type part: the string ends in `": "`
      have hstrip : strip (v :: ' ' :: (n ++ ':' :: ' ' :: [])) = v :: ' ' :: (n ++ [':']) := by
        rw [strip_cons_of_nonspace _ hvs,
          show (' ' :: (n ++ ':' :: ' ' :: [])) = ((' ' :: n ++ [':']) ++ [' ']) by simp,
          rstrip_append_of_space _ (by decide),
          show (' ' :: n ++ [':']) = ((' ' :: n) ++ [':']) by simp,
          rstrip_append_of_nonspace _ (by decide)]
        simp
      have h2 : strip (' ' :: (n ++ [':'])) = n ++ [':'] := by
        rw [strip_cons_space, strip, lstrip_append_trimmed [] hn (by decide),
          show (n ++ [':']) = ((n ++ []) ++ [':']) by simp,
          rstrip_append_of_nonspace _ (by decide)]
      rw [normalize_attribute, hstrip, visSplit_cons_vis _ hv, h2, renderAttr]
      simp only [splitColon_append [] hnc, strip_of_trimmed hn]
      rfl
    · -- nonempty type part, last character non-whitespace
      have hstrip : strip (v :: ' ' :: (n ++ ':' :: ' ' :: (t₀ ++ [c]))) =
          v :: ' ' :: (n ++ ':' :: ' ' :: (t₀ ++ [c])) := by
        rw [strip_cons_of_nonspace _ hvs,
          show (' ' :: (n ++ ':' :: ' ' :: (t₀ ++ [c]))) =
            ((' ' :: (n ++ ':' :: ' ' :: t₀)) ++ [c]) by simp,
          rstrip_append_of_nonspace _ hc]
      have h2 : strip (' ' :: (n ++ ':' :: ' ' :: (t₀ ++ [c]))) =
          n ++ ':' :: ' ' :: (t₀ ++ [c]) := by
        rw [strip_cons_space, strip, lstrip_append_trimmed _ hn (by decide),
          show (n ++ ':' :: ' ' :: (t₀ ++ [c])) =
            ((n ++ ':' :: ' ' :: t₀) ++ [c]) by simp,
          rstrip_append_of_nonspace _ hc]
      have h3 : strip (' ' :: (t₀ ++ [c])) = t₀ ++ [c] := by
        rw [strip_cons_space]
        exact strip_of_trimmed ht
      rw [normalize_attribute, hstrip, visSplit_cons_vis _ hv, h2, renderAttr]
      simp only [splitColon_append _ hnc, strip_of_trimmed hn, h3]
  · -- no-colon shape
    rcases trimmed_concat_cases hb with rfl | ⟨b₀, c, rfl, hc⟩
    · -- empty remainder: the string is `[v, ' ']`
      have hstrip : strip [v, ' '] = [v] := by
        rw [strip, lstrip_cons_of_nonspace _ hvs,
          show ([v, ' ']) = ([v] ++ [' ']) by simp,
          rstrip_append_of_space _ (by decide),
          show ([v] : List Char) = ([] ++ [v]) by simp,
          rstrip_append_of_nonspace _ hvs]
      rw [normalize_attribute, hstrip, visSplit_cons_vis _ hv]
      rfl
    · have hstrip : strip (v :: ' ' :: (b₀ ++ [c])) = v :: ' ' :: (b₀ ++ [c]) := by
        rw [strip_cons_of_nonspace _ hvs,
          show (' ' :: (b₀ ++ [c])) = ((' ' :: b₀) ++ [c]) by simp,
          rstrip_append_of_nonspace _ hc]
      have h2 : strip (' ' :: (b₀ ++ [c])) = b₀ ++ [c] := by
        rw [strip_cons_space]
        exact strip_of_trimmed hb
      rw [normalize_attribute, hstrip, visSplit_cons_vis _ hv, h2, renderAttr]
      simp only [(splitColon_eq_none (l := b₀ ++ [c])).mpr hbc]

-- ### The in-class line classifier of `parse_puml_file` (lines 51-79)

/-- Character class `[^:\s]` of the attribute regex. -/
def isTokChar (c : Char) : Bool := !(isSpace c) && !(c == ':')

/-- Character class `[\w]` of the method regex (ASCII word characters; the
identifiers in scope are ASCII). -/
def isWordChar (c : Char) : Bool := c.isAlphanum || c == '_'

/-- Captured groups of the attribute regex
`([+#~-]?\s*)([^:\s]+)\s*:\s*(.+)`: the visibility marker inside group 1
(when one was consumed), the name group 2, and the type group 3. -/
structure AttrGroups where
  vis : Option Char
  name : List Char
  ty : List Char
  deriving DecidableEq, Repr

/-- Captured groups of the method regex
`([+#~-]?\s*)([\w]+)\s*\(([^)]*)\)\s*(?::\s*(.+))?`. -/
structure MethGroups where
  vis : Option Char
  name : List Char
  params : List Char
  ret : Option (List Char)
  deriving DecidableEq, Repr

/-- The part of the attribute regex after the optional visibility marker:
`\s*` then `[^:\s]+` then `\s*:` then `\s*(.+)`.  The regex is effectively
deterministic here: the name class excludes both whitespace and `':'`, so
backtracking inside `[^:\s]+` or the following `\s*` can never reach the
required `':'`; the final `\s*(.+)` backtracks exactly one character when
everything after the colon is whitespace (the lines fed to the parser come
from `splitlines` and therefore contain no newline, so `.` matches every
remaining character). -/
def attrTail (l : List Char) : Option (List Char × List Char) :=
  let l1 := l.dropWhile isSpace
  let name := l1.takeWhile isTokChar
  let l2 := l1.dropWhile isTokChar
  if name = [] then none
  else
    match l2.dropWhile isSpace with
    | ':' :: rest =>
      let g3 := rest.dropWhile isSpace
      if g3 = [] then
        match rest.getLast? with
        | some c => some (name, [c])
        | none => none
      else some (name, g3)
    | _ => none

/-- `re.match` of the attribute regex `([+#~-]?\s*)([^:\s]+)\s*:\s*(.+)`
(line 53): the optional marker is tried greedily first and given back if the
rest of the pattern fails. -/
def attrRegexMatch (line : List Char) : Option AttrGroups :=
  match line with
  | c :: rest =>
    if isVis c then
      match attrTail rest with
      | some nt => some ⟨some c, nt.1, nt.2⟩
      | none => (attrTail line).map (fun nt => ⟨none, nt.1, nt.2⟩)
    else (attrTail line).map (fun nt => ⟨none, nt.1, nt.2⟩)
  | [] => none

/-- The part of the method regex after the optional visibility marker:
`\s*` then `([\w]+)` then `\s*\(([^)]*)\)` then the optional
`\s*(?::\s*(.+))?` return-type group. -/
def methTail (l : List Char) : Option (List Char × List Char × Option (List Char)) :=
  let l1 := l.dropWhile isSpace
  let name := l1.takeWhile isWordChar
  let l2 := l1.dropWhile isWordChar
  if name = [] then none
  else
    match l2.dropWhile isSpace with
    | '(' :: rest =>
      let params := rest.takeWhile (fun c => !(c == ')'))
      match rest.dropWhile (fun c => !(c == ')')) with
      | ')' :: rest2 =>
        match rest2.dropWhile isSpace with
        | ':' :: rest3 =>
          let g4 := rest3.dropWhile isSpace
          if g4 = [] then
            match rest3.getLast? with
            | some c => some (name, params, some [c])
            | none => some (name, params, none)
          else some (name, params, some g4)
        | _ => some (name, params, none)
      | _ => none
    | _ => none

/-- `re.match` of the method regex (line 67). -/
def methRegexMatch (line : List Char) : Option MethGroups :=
  match line with
  | c :: rest =>
    if isVis c then
      match methTail rest with
      | some g => some ⟨some c, g.1, g.2.1, g.2.2⟩
      | none => (methTail line).map (fun g => ⟨none, g.1, g.2.1, g.2.2⟩)
    else (methTail line).map (fun g => ⟨none, g.1, g.2.1, g.2.2⟩)
  | [] => none

/-- Outcome of one line inside an open class body. -/
inductive LineResult where
  | attrLine (s : List Char)
  | methLine (s : List Char)
  | other
  deriving DecidableEq, Repr

/-- Handling of one line inside an open class, `parse_puml_file` lines
51-79: the attribute regex is tried first; on a match the line is recorded
as `"vis name: type"` (name and type stripped, visibility defaulting to
`'-'`) and the method regex is never consulted.  Otherwise the method regex
is tried and a match is recorded as `"vis name(params): ret"` (params
stripped, visibility defaulting to `'+'`, return type defaulting to
`"void"` when the optional group is missing). -/
def parseLine (line : List Char) : LineResult :=
  match attrRegexMatch line with
  | some g => .attrLine ((g.vis.getD '-') :: ' ' :: (strip g.name ++ ':' :: ' ' :: strip g.ty))
  | none =>
    match methRegexMatch line with
    | some g =>
      .methLine ((g.vis.getD '+') :: ' ' ::
        (g.name ++ '(' :: strip g.params ++ ')' :: ':' :: ' ' ::
          (match g.ret with
           | some r => strip r
           | none => "void".toList)))
    | none => .other

theorem takeWhile_append_of_all {p : Char → Bool} {xs : List Char} {y : Char}
    (zs : List Char) (h : ∀ c ∈ xs, p c = true) (hy : p y = false) :
    List.takeWhile p (xs ++ y :: zs) = xs := by
  induction xs with
  | nil => simp [List.takeWhile_cons, hy]
  | cons a t ih =>
    have ha : p a = true := h a (List.mem_cons_self a t)
    simp only [List.cons_append, List.takeWhile_cons, ha, if_pos]
    rw [ih (fun c hc => h c (List.mem_cons_of_mem a hc))]

theorem dropWhile_append_stop {p : Char → Bool} {xs : List Char} {y : Char}
    (zs : List Char) (h : ∀ c ∈ xs, p c = true) (hy : p y = false) :
    List.dropWhile p (xs ++ y :: zs) = y :: zs := by
  rw [dropWhile_append_of_all (y :: zs) h]
  exact dropWhile_cons_of_neg zs (by simp [hy])

theorem dropWhile_dropWhile (p : Char → Bool) (l : List Char) :
    List.dropWhile p (List.dropWhile p l) = List.dropWhile p l := by
  cases h : List.dropWhile p l with
  | nil => rfl
  | cons c t => exact dropWhile_cons_of_neg t (by simp [head_false_of_dropWhile l h])

theorem strip_lstrip (l : List Char) : strip (lstrip l) = strip l := by
  simp only [strip, lstrip, dropWhile_dropWhile]

theorem trimmed_of_all_nonspace {l : List Char} (h : ∀ c ∈ l, isSpace c = false) :
    Trimmed l := by
  constructor
  · intro c t he
    exact h c (he ▸ List.mem_cons_self c t)
  · intro t c he
    exact h c (he ▸ List.mem_append_right t (List.mem_singleton.mpr rfl))

/-- Claim C10: inside an open class, a line of the form
`[vis] token: rest` — optional visibility marker, a token free of whitespace
and colons, a colon, and a non-blank remainder — is matched by the attribute
regex and recorded as the attribute string `"vis token: rest"`; the method
regex is never consulted for it, so a method signature with an explicit
return type and no whitespace before the colon (such as `+ getName(): String`)
is stored as an attribute rather than as a method. -/
theorem claim_C10_colon_line_is_attribute (v : Option Char) (token rest : List Char)
    (hv : ∀ c, v = some c → isVis c = true)
    (hv0 : v = none → ∀ c t, token = c :: t → isVis c = false)
    (htokne : token ≠ [])
    (htok : ∀ c ∈ token, isTokChar c = true)
    (hrest : rest.dropWhile isSpace ≠ []) :
    parseLine ((v.elim [] (fun c => [c, ' '])) ++ token ++ ':' :: rest) =
      LineResult.attrLine ((v.getD '-') :: ' ' :: (token ++ ':' :: ' ' :: strip rest)) := by
  have htok_nonspace : ∀ c ∈ token, isSpace c = false := by
    intro c hc
    have := htok c hc
    simp only [isTokChar, Bool.and_eq_true, Bool.not_eq_true'] at this
    exact this.1
  have htok_trimmed : Trimmed token := trimmed_of_all_nonspace htok_nonspace
  have hcolon : isTokChar ':' = false := by decide
  have hlstr : List.dropWhile isSpace (token ++ ':' :: rest) = token ++ ':' :: rest := by
    obtain ⟨c, t, rfl⟩ := List.exists_cons_of_ne_nil htokne
    simpa using dropWhile_cons_of_neg (t ++ ':' :: rest)
      (by simp [htok_nonspace c (List.mem_cons_self c t)])
  have htail : ∀ l : List Char, List.dropWhile isSpace l = token ++ ':' :: rest →
      attrTail l = some (token, rest.dropWhile isSpace) := by
    intro l h0
    rw [attrTail]
    simp only [h0, takeWhile_append_of_all _ htok hcolon,
      dropWhile_append_stop _ htok hcolon, if_neg htokne]
    rw [dropWhile_cons_of_neg rest (by decide)]
    simp only [if_neg hrest]
  have hstripname : strip token = token := strip_of_trimmed htok_trimmed
  have hstripty : strip (rest.dropWhile isSpace) = strip rest := strip_lstrip rest
  cases v with
  | none =>
    obtain ⟨c, t, rfl⟩ := List.exists_cons_of_ne_nil htokne
    have hnv : isVis c = false := hv0 rfl c t rfl
    rw [show (Option.elim (none : Option Char) [] (fun c => [c, ' '])) ++
        (c :: t) ++ ':' :: rest = c :: (t ++ ':' :: rest) from by simp]
    rw [parseLine, attrRegexMatch]
    simp only [hnv, Bool.false_eq_true, if_false]
    rw [show c :: (t ++ ':' :: rest) = (c :: t) ++ ':' :: rest from rfl,
      htail _ hlstr]
    simp only [Option.map_some']
    rw [hstripname, hstripty]
  | some m =>
    have hm : isVis m = true := hv m rfl
    rw [show (Option.elim (some m) [] (fun c => [c, ' '])) ++ token ++ ':' :: rest
        = m :: (' ' :: (token ++ ':' :: rest)) from by simp]
    have htail2 : attrTail (' ' :: (token ++ ':' :: rest)) =
        some (token, rest.dropWhile isSpace) := by
      apply htail
      rw [show List.dropWhile isSpace (' ' :: (token ++ ':' :: rest)) =
          List.dropWhile isSpace (token ++ ':' :: rest) from by
        simpa [lstrip] using lstrip_cons_of_space (token ++ ':' :: rest) (by decide)]
      exact hlstr
    rw [parseLine, attrRegexMatch]
    simp only [hm, if_pos, htail2]
    rw [hstripname, hstripty]

/-- Witness for claim C10: the method-looking line `+ getName(): String`
is classified as an attribute and stored verbatim as `"+ getName(): String"`. -/
theorem claim_C10_witness :
    parseLine ("+ getName(): String".toList) =
      LineResult.attrLine ("+ getName(): String".toList) := by
  have h := claim_C10_colon_line_is_attribute (some '+') ("getName()".toList)
    (" String".toList)
    (by intro c hc; cases hc; decide)
    (by intro h; cases h)
    (by decide) (by decide) (by decide)
  have h2 : ((some '+').elim [] (fun c => [c, ' '])) ++ "getName()".toList ++
      ':' :: " String".toList = "+ getName(): String".toList := by decide
  have h3 : (((some '+').getD '-') :: ' ' ::
      ("getName()".toList ++ ':' :: ' ' :: strip (" String".toList))) =
      "+ getName(): String".toList := by decide
  rw [h2, h3] at h
  exact h

example : parseLine "+ getName()".toList = LineResult.methLine "+ getName(): void".toList := by
  decide

example : parseLine "name : int".toList = LineResult.attrLine "- name: int".toList := by
  decide

example : parseLine "just some words".toList = LineResult.other := by
  decide

/-- Claim C9: `normalize_attribute` is idempotent: for every string `s`,
`normalize_attribute (normalize_attribute s) = normalize_attribute s`. -/
theorem claim_C9_normalize_attribute_idempotent (s : List Char) :
    normalize_attribute (normalize_attribute s) = normalize_attribute s :=
  normalize_attribute_of_shape (normalize_attribute_shape s)

-- ### difflib.SequenceMatcher ratio (Ratcliff/Obershelp)

/-- Running best match of Python difflib's `find_longest_match` scan:
start indices in both sequences and the block length. -/
structure MatchBest where
  besti : ℕ
  bestj : ℕ
  bestsize : ℕ
  deriving DecidableEq, Repr

/-- One row (`for i` iteration) of difflib's `find_longest_match`: scan the
positions `j ∈ [blo, bhi)` where `b[j] = a[i]` in increasing order, extend
the diagonal run lengths (`j2len`), and update the best block on a strictly
longer run.  Junk handling is omitted: with no junk argument, difflib's
autojunk only triggers for sequences of 200+ elements, far beyond every
string compared here, and with an empty junk set the two post-scan extension
loops can never move (a neighbouring equal pair would have produced a longer
run during the scan). -/
def flmRow (aI : Char) (b : List Char) (blo : ℕ) (i : ℕ) (j2len : ℕ → ℕ)
    (best : MatchBest) : (ℕ → ℕ) × MatchBest :=
  (List.range b.length).foldl
    (fun acc j =>
      if blo ≤ j ∧ b.getD j ' ' = aI then
        let k := (if j = 0 then 0 else j2len (j - 1)) + 1
        ((fun j' => if j' = j then k else acc.1 j'),
          if k > acc.2.bestsize then ⟨i + 1 - k, j + 1 - k, k⟩ else acc.2)
      else acc)
    ((fun _ => 0), best)

/-- difflib `SequenceMatcher.find_longest_match` on the window
`a[alo:ahi] × b[blo:bhi]` (junk-free; see `flmRow`). -/
def findLongestMatch (a b : List Char) (alo ahi blo bhi : ℕ) : MatchBest :=
  ((List.range ahi).foldl
    (fun acc i =>
      if alo ≤ i then flmRow (a.getD i ' ') (b.take bhi) blo i acc.1 acc.2
      else acc)
    ((fun _ => 0), (⟨alo, blo, 0⟩ : MatchBest))).2

/-- Total size of the matching blocks of `SequenceMatcher.get_matching_blocks`
(the recursive longest-block decomposition), computed with a fuel argument
that strictly bounds the recursion depth (each recursive window is strictly
narrower in the `a` range). -/
def matchTotalAux : ℕ → List Char → List Char → ℕ → ℕ → ℕ → ℕ → ℕ
  | 0, _, _, _, _, _, _ => 0
  | fuel + 1, a, b, alo, ahi, blo, bhi =>
    let m := findLongestMatch a b alo ahi blo bhi
    if m.bestsize = 0 then 0
    else
      matchTotalAux fuel a b alo m.besti blo m.bestj + m.bestsize +
        matchTotalAux fuel a b (m.besti + m.bestsize) ahi (m.bestj + m.bestsize) bhi

/-- Total matched characters between `a` and `b` (difflib). -/
def matchTotal (a b : List Char) : ℕ :=
  matchTotalAux (a.length + 1) a b 0 a.length 0 b.length

/-- `SequenceMatcher(None, a, b).ratio() = 2·M / (len a + len b)`, defined as
`1.0` when both sequences are empty (difflib's `_calculate_ratio`). -/
def smRatio (a b : List Char) : ℚ :=
  if a.length + b.length = 0 then 1
  else (2 * matchTotal a b : ℚ) / ((a.length : ℚ) + (b.length : ℚ))

theorem smRatio_eval (a b : List Char) (m la lb : ℕ) (hm : matchTotal a b = m)
    (ha : a.length = la) (hb : b.length = lb) (h0 : ¬ la + lb = 0) :
    smRatio a b = (2 * m : ℚ) / ((la : ℚ) + (lb : ℚ)) := by
  rw [smRatio, ha, hb, hm, if_neg h0]

example : matchTotal "person".toList "person".toList = 6 := by decide

example : matchTotal "persons".toList "person".toList = 6 := by decide

example : matchTotal "Person".toList "person".toList = 5 := by decide

example : matchTotal "abcd".toList "bcda".toList = 3 := by decide

example : smRatio "persons".toList "person".toList = 12 / 13 := by
  rw [smRatio_eval _ _ 6 7 6 (by decide) (by decide) (by decide) (by decide)]
  norm_num

example : smRatio "".toList "".toList = 1 := by
  rw [smRatio, if_pos (by decide)]

-- ### Data model and the two comparison variants

/-- `ClassInfo` namedtuple of `src/comparator.py` (line 14). -/
structure ClassInfo where
  name : List Char
  attributes : List (List Char)
  methods : List (List Char)
  deriving DecidableEq, Repr

/-- ASCII case folding (`str.lower()`; all class names in scope are ASCII). -/
def lowerChar (c : Char) : Char :=
  if 'A' ≤ c ∧ c ≤ 'Z' then Char.ofNat (c.toNat + 32) else c

/-- `str.lower()` on a whole string. -/
def lowerStr (s : List Char) : List Char := s.map lowerChar

/-- `{c.name.lower(): c for c in classes.values()}` (lines 203-204): a dict
built in iteration order; a repeated key keeps its original position and is
overwritten with the later value. -/
def buildLow (cs : List ClassInfo) : List (List Char × ClassInfo) :=
  cs.foldl
    (fun acc c =>
      let key := lowerStr c.name
      if acc.any (fun p => p.1 == key) then
        acc.map (fun p => if p.1 == key then (key, c) else p)
      else acc ++ [(key, c)])
    []

/-- First-match association lookup (Python dict lookup; keys are unique in
every dict the code builds). -/
def lookupLow (l : List (List Char × ClassInfo)) (k : List Char) : Option ClassInfo :=
  (l.find? (fun p => p.1 == k)).map (fun p => p.2)

/-- Inner best search of `_match_attributes` (lines 164-172): best
not-yet-matched reference attribute for one candidate attribute, strict
improvement, ties keep the earliest index. -/
def bestEtalonIdx (etalonAttrs : List (List Char)) (matchedE : List ℕ)
    (studentAttr : List Char) : Option ℕ × ℚ :=
  (List.range etalonAttrs.length).foldl
    (fun acc eIdx =>
      if eIdx ∈ matchedE then acc
      else
        let r := smRatio (etalonAttrs.getD eIdx []) studentAttr
        if r > acc.2 then (some eIdx, r) else acc)
    (none, 0)

/-- Accumulated matched index sets of `_match_attributes` (lines 161-175),
with the Python sets modelled as the lists of indices in insertion order
(every inserted index is fresh, so lengths equal set sizes). -/
def matchAttrSets (etalonAttrs studentAttrs : List (List Char)) (threshold : ℚ) :
    List ℕ × List ℕ :=
  studentAttrs.enum.foldl
    (fun acc si =>
      let best := bestEtalonIdx etalonAttrs acc.1 si.2
      match best.1 with
      | some bIdx =>
        if best.2 ≥ threshold then (acc.1 ++ [bIdx], acc.2 ++ [si.1]) else acc
      | none => acc)
    ([], [])

/-- `_match_attributes` (lines 155-183): greedy fuzzy one-to-one matching of
two attribute lists; returns `(match count, missing, extra)`. -/
def matchAttributesFn (etalonAttrs studentAttrs : List (List Char)) (threshold : ℚ) :
    ℕ × List (List Char) × List (List Char) :=
  let ms := matchAttrSets etalonAttrs studentAttrs threshold
  (ms.1.length,
    (etalonAttrs.enum.filter (fun p => !(ms.1.contains p.1))).map (fun p => p.2),
    (studentAttrs.enum.filter (fun p => !(ms.2.contains p.1))).map (fun p => p.2))

/-- Per-facet metrics block of the result dictionary. -/
structure FacetResult where
  f1 : ℚ
  precision : ℚ
  recl : ℚ
  etalon_count : ℕ
  student_count : ℕ
  matched : ℕ
  deriving DecidableEq, Repr

/-- One entry of the `diff.attributes` list. -/
structure AttrDiffEntry where
  etalon_class : Option (List Char)
  student_class : Option (List Char)
  missing : List (List Char)
  extra : List (List Char)
  deriving DecidableEq, Repr

/-- The `diff.classes` block. -/
structure ClassDiff where
  missing : List (List Char)
  extra : List (List Char)
  deriving DecidableEq, Repr

/-- The full success dictionary of either comparison variant. -/
structure FullResult where
  similarity : ℚ
  score : ℚ
  classes : FacetResult
  attributes : FacetResult
  class_diff : ClassDiff
  attr_diffs : List AttrDiffEntry
  deriving DecidableEq, Repr

/-- Return value of a comparison: either one of the degenerate early-return
dictionaries (which carry an error note, a similarity, and — in one case — a
score), or the full result dictionary. -/
inductive CompareOutput where
  | failure (error : String) (similarity : ℚ) (score : Option ℚ)
  | success (r : FullResult)
  deriving DecidableEq, Repr

/-- `2·p·r/(p+r) if p + r > 0 else 0`, the guarded F1 used throughout. -/
def f1Of (p r : ℚ) : ℚ := if p + r > 0 then 2 * p * r / (p + r) else 0

/-- Best-candidate search of `compare_puml_with_json` (lines 212-218):
maximal ratio over ALL candidate entries — already-matched candidates are
not skipped — with strict improvement, keeping the first maximum. -/
def bestStudentLow (e_low : List Char) (studentLow : List (List Char × ClassInfo)) :
    ℚ × Option (List Char) :=
  studentLow.foldl
    (fun acc s =>
      let r := smRatio e_low s.1
      if r > acc.1 then (r, some s.1) else acc)
    (0, none)

/-- State after the class-matching loop of `compare_puml_with_json`
(lines 207-222): the match count, the `class_mapping` entries in insertion
order, and the `matched_student_lows` set (as an insertion-ordered list;
`None` can be inserted when a threshold of 0 accepts an empty best). -/
structure JsonClassPhase where
  matched_classes : ℕ
  class_mapping : List (List Char × Option (List Char) × ℚ)
  matched_student_lows : List (Option (List Char))
  deriving DecidableEq, Repr

/-- Class-matching loop of `compare_puml_with_json` (lines 207-222). -/
def jsonClassPhase (etalonLow studentLow : List (List Char × ClassInfo))
    (classThreshold : ℚ) : JsonClassPhase :=
  etalonLow.foldl
    (fun st e =>
      let best := bestStudentLow e.1 studentLow
      if best.1 ≥ classThreshold then
        { matched_classes := st.matched_classes + 1,
          class_mapping := st.class_mapping ++ [(e.1, best.2, best.1)],
          matched_student_lows :=
            if best.2 ∈ st.matched_student_lows then st.matched_student_lows
            else st.matched_student_lows ++ [best.2] }
      else st)
    ⟨0, [], []⟩

/-- `class_mapping.get(e_low)` (line 243). -/
def lookupMapping (m : List (List Char × Option (List Char) × ℚ)) (k : List Char) :
    Option (Option (List Char) × ℚ) :=
  (m.find? (fun p => p.1 == k)).map (fun p => p.2)

/-- Accumulators of the attribute pass of `compare_puml_with_json`
(lines 233-291). -/
structure JsonAttrPhase where
  etalon_attr_count : ℕ
  student_attr_count : ℕ
  matched_attrs : ℕ
  attribute_diffs : List AttrDiffEntry
  deriving DecidableEq, Repr

/-- Attribute pass of `compare_puml_with_json` (lines 238-291): the per-
reference loop (which adds the candidate's attribute count only for matched
references) followed by the unmatched-candidate loop (which reports extra
attributes but adds nothing to any count). -/
def jsonAttrPhase (etalonLow studentLow : List (List Char × ClassInfo))
    (cp : JsonClassPhase) (attrThreshold : ℚ) : JsonAttrPhase :=
  let st1 : JsonAttrPhase := etalonLow.foldl
    (fun st e =>
      let nEtalon := e.2.attributes.map normalize_attribute
      let cnt := st.etalon_attr_count + nEtalon.length
      match lookupMapping cp.class_mapping e.1 with
      | some (some s_low, _) =>
        let s_cls := (lookupLow studentLow s_low).getD ⟨[], [], []⟩
        let nStudent := s_cls.attributes.map normalize_attribute
        let res := matchAttributesFn nEtalon nStudent attrThreshold
        { etalon_attr_count := cnt,
          student_attr_count := st.student_attr_count + nStudent.length,
          matched_attrs := st.matched_attrs + res.1,
          attribute_diffs := st.attribute_diffs ++
            (if res.2.1 ≠ [] ∨ res.2.2 ≠ [] then
              [⟨some e.2.name, some s_cls.name, res.2.1, res.2.2⟩] else []) }
      | _ =>
        { st with
          etalon_attr_count := cnt,
          attribute_diffs := st.attribute_diffs ++
            (if nEtalon ≠ [] then [⟨some e.2.name, none, nEtalon, []⟩] else []) })
    ⟨0, 0, 0, []⟩
  studentLow.foldl
    (fun st s =>
      if some s.1 ∈ cp.matched_student_lows then st
      else
        let nStudent := s.2.attributes.map normalize_attribute
        { st with
          attribute_diffs := st.attribute_diffs ++
            (if nStudent ≠ [] then [⟨none, some s.2.name, [], nStudent⟩] else []) })
    st1

/-- `compare_puml_with_json` (lines 186-344), taking the two already-parsed
models (the dictionaries' value lists in insertion order). -/
def compare_puml_with_json (etalon_classes student_classes : List ClassInfo)
    (class_threshold attr_threshold : ℚ) : CompareOutput :=
  match etalon_classes with
  | [] => .failure "Эталон пустой — нельзя сравнить" 1 none
  | _ =>
    let etalonLow := buildLow etalon_classes
    let studentLow := buildLow student_classes
    let cp := jsonClassPhase etalonLow studentLow class_threshold
    let precision_c : ℚ :=
      if student_classes ≠ [] then (cp.matched_classes : ℚ) / (student_classes.length : ℚ)
      else 0
    let recall_c : ℚ := (cp.matched_classes : ℚ) / (etalon_classes.length : ℚ)
    let f1_classes := f1Of precision_c recall_c
    let ap := jsonAttrPhase etalonLow studentLow cp attr_threshold
    let no_attributes := ap.etalon_attr_count = 0 ∧ ap.student_attr_count = 0
    let precision_a : ℚ :=
      if no_attributes then 1
      else if ap.student_attr_count ≠ 0 then
        (ap.matched_attrs : ℚ) / (ap.student_attr_count : ℚ)
      else 0
    let recall_a : ℚ :=
      if no_attributes then 1
      else if ap.etalon_attr_count ≠ 0 then
        (ap.matched_attrs : ℚ) / (ap.etalon_attr_count : ℚ)
      else 0
    let f1_attrs : ℚ := if no_attributes then 1 else f1Of precision_a recall_a
    let total_similarity := (6 / 10 : ℚ) * f1_classes + (4 / 10 : ℚ) * f1_attrs
    .success
      { similarity := total_similarity,
        score := total_similarity * 100,
        classes := ⟨f1_classes, precision_c, recall_c,
          etalon_classes.length, student_classes.length, cp.matched_classes⟩,
        attributes := ⟨f1_attrs, precision_a, recall_a,
          ap.etalon_attr_count, ap.student_attr_count, ap.matched_attrs⟩,
        class_diff :=
          ⟨(etalonLow.filter
              (fun e => lookupMapping cp.class_mapping e.1 = none)).map
            (fun e => e.2.name),
           (studentLow.filter
              (fun s => !(cp.matched_student_lows.contains (some s.1)))).map
            (fun s => s.2.name)⟩,
        attr_diffs := ap.attribute_diffs }

/-- Best-candidate search of `compare_puml_with_puml` (lines 418-430):
already-matched candidate names are skipped; a candidate wins when its ratio
is both ≥ the threshold and a strict improvement. -/
def bestStudentPuml (etalon_name : List Char) (students : List ClassInfo)
    (matched : List (List Char)) (classThreshold : ℚ) : Option (List Char) × ℚ :=
  students.foldl
    (fun acc s =>
      if s.name ∈ matched then acc
      else
        let r := smRatio etalon_name s.name
        if r ≥ classThreshold ∧ r > acc.2 then (some s.name, r) else acc)
    (none, 0)

/-- State after the class-matching loop of `compare_puml_with_puml`
(lines 412-436): count, the matched candidate names in insertion order
(a Python set used only through membership), and the missing references. -/
structure PumlClassPhase where
  matched_classes : ℕ
  matched_class_names : List (List Char)
  missing_classes : List (List Char)
  deriving DecidableEq, Repr

/-- Class-matching loop of `compare_puml_with_puml` (lines 416-436);
`if best_candidate:` is Python truthiness, so an empty-string candidate name
falls into the missing branch. -/
def pumlClassPhase (etalon_classes student_classes : List ClassInfo)
    (classThreshold : ℚ) : PumlClassPhase :=
  etalon_classes.foldl
    (fun st e =>
      let best := bestStudentPuml e.name student_classes st.matched_class_names classThreshold
      match best.1 with
      | some bc =>
        if bc ≠ [] then
          { matched_classes := st.matched_classes + 1,
            matched_class_names := st.matched_class_names ++ [bc],
            missing_classes := st.missing_classes }
        else { st with missing_classes := st.missing_classes ++ [e.name] }
      | none => { st with missing_classes := st.missing_classes ++ [e.name] })
    ⟨0, [], []⟩

/-- The candidate re-derivation of the attribute pass of
`compare_puml_with_puml` (lines 469-477): the first candidate name, in model
order, that is in the matched set and within the class threshold of the
reference name. -/
def pumlAttrPartner (etalon_name : List Char) (students : List ClassInfo)
    (matched : List (List Char)) (classThreshold : ℚ) : Option (List Char) :=
  (students.find?
    (fun s => decide (s.name ∈ matched) &&
      decide (smRatio etalon_name s.name ≥ classThreshold))).map (fun s => s.name)

/-- `student_classes[student_name]` (line 480). -/
def lookupClass (students : List ClassInfo) (nm : List Char) : ClassInfo :=
  (students.find? (fun s => s.name == nm)).getD ⟨[], [], []⟩

/-- Accumulators of the attribute pass of `compare_puml_with_puml`
(lines 463-500).  The missing/extra totals are collected by the code but
never reported in the returned dictionary. -/
structure PumlAttrPhase where
  total_matched_attrs : ℕ
  total_missing_attrs : List (List Char)
  total_extra_attrs : List (List Char)
  all_attr_diffs : List AttrDiffEntry
  deriving DecidableEq, Repr

/-- Attribute pass of `compare_puml_with_puml` (lines 468-500); attributes
are compared raw (no re-normalization in this variant). -/
def pumlAttrPhase (etalon_classes student_classes : List ClassInfo)
    (matched : List (List Char)) (classThreshold attrThreshold : ℚ) : PumlAttrPhase :=
  etalon_classes.foldl
    (fun st e =>
      match pumlAttrPartner e.name student_classes matched classThreshold with
      | some sname =>
        if sname ≠ [] then
          let s_cls := lookupClass student_classes sname
          let res := matchAttributesFn e.attributes s_cls.attributes attrThreshold
          { total_matched_attrs := st.total_matched_attrs + res.1,
            total_missing_attrs := st.total_missing_attrs ++ res.2.1,
            total_extra_attrs := st.total_extra_attrs ++ res.2.2,
            all_attr_diffs := st.all_attr_diffs ++
              (if res.2.1 ≠ [] ∨ res.2.2 ≠ [] then
                [⟨some e.name, some sname, res.2.1, res.2.2⟩] else []) }
        else { st with total_missing_attrs := st.total_missing_attrs ++ e.attributes }
      | none => { st with total_missing_attrs := st.total_missing_attrs ++ e.attributes })
    ⟨0, [], [], []⟩

/-- `compare_puml_with_puml` (lines 388-564), on already-parsed models. -/
def compare_puml_with_puml (etalon_classes student_classes : List ClassInfo)
    (class_threshold attr_threshold : ℚ) : CompareOutput :=
  match etalon_classes with
  | [] => .failure "Первая диаграмма пустая — нельзя сравнить" 1 none
  | _ =>
    match student_classes with
    | [] => .failure "Вторая диаграмма пустая" 0 (some 0)
    | _ =>
      let cp := pumlClassPhase etalon_classes student_classes class_threshold
      let extra_classes :=
        (student_classes.filter
          (fun s => !(cp.matched_class_names.contains s.name))).map (fun s => s.name)
      let ecc := etalon_classes.length
      let scc := student_classes.length
      let precision_cls : ℚ :=
        if ecc > 0 ∨ scc > 0 then
          (if scc > 0 then (cp.matched_classes : ℚ) / (scc : ℚ) else 1)
        else 1
      let recall_cls : ℚ :=
        if ecc > 0 ∨ scc > 0 then
          (if ecc > 0 then (cp.matched_classes : ℚ) / (ecc : ℚ) else 1)
        else 1
      let f1_cls := f1Of precision_cls recall_cls
      let ap := pumlAttrPhase etalon_classes student_classes cp.matched_class_names
        class_threshold attr_threshold
      let eac : ℕ := (etalon_classes.map (fun c => c.attributes.length)).sum
      let sac : ℕ := (student_classes.map (fun c => c.attributes.length)).sum
      let precision_attr : ℚ :=
        if eac > 0 ∨ sac > 0 then
          (if sac > 0 then (ap.total_matched_attrs : ℚ) / (sac : ℚ) else 1)
        else 1
      let recall_attr : ℚ :=
        if eac > 0 ∨ sac > 0 then
          (if eac > 0 then (ap.total_matched_attrs : ℚ) / (eac : ℚ) else 1)
        else 1
      let f1_attr := f1Of precision_attr recall_attr
      let overall_precision : ℚ :=
        if precision_cls + precision_attr > 0 then (precision_cls + precision_attr) / 2
        else 1
      let overall_recall : ℚ :=
        if recall_cls + recall_attr > 0 then (recall_cls + recall_attr) / 2 else 1
      let overall_f1 := f1Of overall_precision overall_recall
      .success
        { similarity := overall_f1,
          score := overall_f1 * 100,
          classes := ⟨f1_cls, precision_cls, recall_cls, ecc, scc, cp.matched_classes⟩,
          attributes := ⟨f1_attr, precision_attr, recall_attr, eac, sac,
            ap.total_matched_attrs⟩,
          class_diff := ⟨cp.missing_classes, extra_classes⟩,
          attr_diffs := ap.all_attr_diffs }

-- ### Batch pairing (`compare_batch`, lines 347-385)

/-- A diagram file as the batch matcher sees it: `Path(p).name`,
`Path(p).stem`, and the model its content parses to. -/
structure PumlFile where
  fname : List Char
  stem : List Char
  classes : List ClassInfo
  deriving DecidableEq, Repr

/-- Python substring containment `needle in hay`. -/
def containsSub (needle hay : List Char) : Bool :=
  (List.range (hay.length + 1)).any (fun i => (hay.drop i).take needle.length == needle)

/-- The pairing condition of `compare_batch` (lines 362-365): either stem,
lowercased, contains the other. -/
def stemMatches (etalonStem studentStem : List Char) : Bool :=
  containsSub (lowerStr etalonStem) (lowerStr studentStem) ||
    containsSub (lowerStr studentStem) (lowerStr etalonStem)

/-- One entry of the list returned by `compare_batch`: a comparison result
annotated with the two file names, or the placeholder dictionary for a
reference with no matching candidate. -/
inductive BatchEntry where
  | compared (etalon_file student_file : List Char) (result : CompareOutput)
  | nomatch (etalon_file : List Char) (student_file_note error : String)
      (similarity score : ℚ)
  deriving DecidableEq, Repr

/-- Inner candidate-search loop of `compare_batch` (lines 358-367): first
candidate whose stem matches, by Python's `for`/`break`; matched candidates
are never removed from the pool. -/
def findStudentFile (etalonStem : List Char) (students : List PumlFile) :
    Option PumlFile :=
  students.foldl
    (fun acc s =>
      match acc with
      | some _ => acc
      | none => if stemMatches etalonStem s.stem then some s else none)
    none

/-- `compare_batch` (lines 347-385), with the default thresholds of
`compare_puml_with_json` (0.90 and 0.85). -/
def compare_batch (etalons students : List PumlFile) : List BatchEntry :=
  etalons.foldl
    (fun results e =>
      match findStudentFile e.stem students with
      | some s =>
        results ++ [.compared e.fname s.fname
          (compare_puml_with_json e.classes s.classes (9 / 10) (17 / 20))]
      | none =>
        results ++ [.nomatch e.fname "Не найден"
          "Соответствующий JSON файл не найден" 0 0])
    []

example : normalize_attribute "id:int".toList = "- id: int".toList := by decide

example : normalize_attribute "+ name : String ".toList = "+ name: String".toList := by decide

example : normalize_attribute "flag".toList = "- flag".toList := by decide

-- ### Claim C7: empty-reference sentinel

/-- Claim C7: for every candidate model, comparing against an empty reference
model returns the degenerate early-return result with `similarity = 1.0` and
an explanatory note, in both comparison variants; no further matching is
performed (the functions return before any matching phase) and, the
embedding being total, no exception is raised. -/
theorem claim_C7_empty_reference_sentinel (student : List ClassInfo)
    (class_threshold attr_threshold : ℚ) :
    compare_puml_with_json [] student class_threshold attr_threshold =
      CompareOutput.failure "Эталон пустой — нельзя сравнить" 1 none ∧
    compare_puml_with_puml [] student class_threshold attr_threshold =
      CompareOutput.failure "Первая диаграмма пустая — нельзя сравнить" 1 none :=
  ⟨rfl, rfl⟩

-- ### Claim C5: batch pairing

theorem findStudentFile_eq_find (st : List Char) (students : List PumlFile) :
    findStudentFile st students =
      students.find? (fun s => stemMatches st s.stem) := by
  rw [findStudentFile]
  have key : ∀ (ss : List PumlFile) (a : PumlFile),
      ss.foldl
        (fun acc s =>
          match acc with
          | some _ => acc
          | none => if stemMatches st s.stem then some s else none)
        (some a) = some a := by
    intro ss a
    induction ss with
    | nil => rfl
    | cons s t ih => simpa using ih
  induction students with
  | nil => rfl
  | cons s t ih =>
    by_cases h : stemMatches st s.stem = true
    · simp [List.find?_cons, h, key]
    · simp only [List.foldl_cons, List.find?_cons, h]
      simpa [h] using ih

theorem compare_batch_eq_map (etalons students : List PumlFile) :
    compare_batch etalons students = etalons.map (fun e =>
      match findStudentFile e.stem students with
      | some s => BatchEntry.compared e.fname s.fname
          (compare_puml_with_json e.classes s.classes (9 / 10) (17 / 20))
      | none => BatchEntry.nomatch e.fname "Не найден"
          "Соответствующий JSON файл не найден" 0 0) := by
  rw [compare_batch]
  have key : ∀ (l : List PumlFile) (init : List BatchEntry),
      l.foldl
        (fun results e =>
          match findStudentFile e.stem students with
          | some s =>
            results ++ [.compared e.fname s.fname
              (compare_puml_with_json e.classes s.classes (9 / 10) (17 / 20))]
          | none =>
            results ++ [.nomatch e.fname "Не найден"
              "Соответствующий JSON файл не найден" 0 0])
        init =
      init ++ l.map (fun e =>
        match findStudentFile e.stem students with
        | some s => BatchEntry.compared e.fname s.fname
            (compare_puml_with_json e.classes s.classes (9 / 10) (17 / 20))
        | none => BatchEntry.nomatch e.fname "Не найден"
            "Соответствующий JSON файл не найден" 0 0) := by
    intro l
    induction l with
    | nil => simp
    | cons e t ih =>
      intro init
      rw [List.foldl_cons, List.map_cons]
      cases h : findStudentFile e.stem students with
      | some s => rw [ih]; simp
      | none => rw [ih]; simp
  simpa using key etalons []

/-- Counterexample to claim C5: the candidate with stem `a` is paired with
BOTH references (stems `a` and `ab`) in one batch — a matched candidate is
not removed from the pool, so "each candidate file is used in at most one
pairing" is false. -/
theorem claim_C5_counterexample :
    compare_batch
      [⟨"a.puml".toList, "a".toList, []⟩, ⟨"ab.puml".toList, "ab".toList, []⟩]
      [⟨"a.json".toList, "a".toList, []⟩] =
      [BatchEntry.compared "a.puml".toList "a.json".toList
        (CompareOutput.failure "Эталон пустой — нельзя сравнить" 1 none),
       BatchEntry.compared "ab.puml".toList "a.json".toList
        (CompareOutput.failure "Эталон пустой — нельзя сравнить" 1 none)] := by
  rfl

/-- Claim C5 (amended): `compare_batch` produces one entry per reference
file, in order; each reference is compared against the FIRST candidate in
list order whose lowercased stem contains, or is contained in, the
reference's lowercased stem — candidates are never removed from the pool,
so one candidate may be paired with several references — and a reference
with no matching candidate yields the placeholder entry with
`similarity = 0`, `score = 0` and an explanatory error note. -/
theorem claim_C5_batch_pairing (etalons students : List PumlFile) :
    compare_batch etalons students = etalons.map (fun e =>
      match students.find? (fun s => stemMatches e.stem s.stem) with
      | some s => BatchEntry.compared e.fname s.fname
          (compare_puml_with_json e.classes s.classes (9 / 10) (17 / 20))
      | none => BatchEntry.nomatch e.fname "Не найден"
          "Соответствующий JSON файл не найден" 0 0) := by
  rw [compare_batch_eq_map]
  simp only [findStudentFile_eq_find]

-- ### Claim C1: one-to-one class matching

theorem bestStudentPuml_sound (e_name : List Char) (students : List ClassInfo)
    (matched : List (List Char)) (th : ℚ) :
    ∀ nm, (bestStudentPuml e_name students matched th).1 = some nm →
      nm ∉ matched ∧ nm ∈ students.map (fun s => s.name) := by
  rw [bestStudentPuml]
  have key : ∀ (ss : List ClassInfo) (acc : Option (List Char) × ℚ),
      (∀ nm, acc.1 = some nm → nm ∉ matched ∧ nm ∈ students.map (fun s => s.name)) →
      (∀ s ∈ ss, s ∈ students) →
      ∀ nm,
        (ss.foldl
          (fun acc s =>
            if s.name ∈ matched then acc
            else
              let r := smRatio e_name s.name
              if r ≥ th ∧ r > acc.2 then (some s.name, r) else acc)
          acc).1 = some nm →
        nm ∉ matched ∧ nm ∈ students.map (fun s => s.name) := by
    intro ss
    induction ss with
    | nil => intro acc hacc _ nm h; exact hacc nm h
    | cons s t ih =>
      intro acc hacc hmem nm h
      rw [List.foldl_cons] at h
      by_cases hs : s.name ∈ matched
      · exact ih acc hacc (fun x hx => hmem x (List.mem_cons_of_mem s hx)) nm
          (by simpa [hs] using h)
      · by_cases hr : smRatio e_name s.name ≥ th ∧ smRatio e_name s.name > acc.2
        · refine ih _ ?_ (fun x hx => hmem x (List.mem_cons_of_mem s hx)) nm
            (by simpa [hs, hr] using h)
          intro nm' h'
          simp only [if_neg hs, if_pos hr] at h'
          cases h'
          exact ⟨hs, List.mem_map_of_mem _ (hmem s (List.mem_cons_self s t))⟩
        · exact ih acc hacc (fun x hx => hmem x (List.mem_cons_of_mem s hx)) nm
            (by simpa [hs, hr] using h)
  exact key students (none, 0) (by simp) (fun s hs => hs)

/-- The one-to-one invariant of the class-matching loop of
`compare_puml_with_puml`. -/
def PumlPhaseInv (students : List ClassInfo) (st : PumlClassPhase) : Prop :=
  st.matched_class_names.Nodup ∧
    st.matched_classes = st.matched_class_names.length ∧
    st.matched_class_names ⊆ students.map (fun s => s.name)

theorem pumlClassPhase_inv (etalon students : List ClassInfo) (th : ℚ) :
    PumlPhaseInv students (pumlClassPhase etalon students th) := by
  rw [pumlClassPhase]
  have key : ∀ (es : List ClassInfo) (st : PumlClassPhase),
      PumlPhaseInv students st →
      PumlPhaseInv students (es.foldl
        (fun st e =>
          let best := bestStudentPuml e.name students st.matched_class_names th
          match best.1 with
          | some bc =>
            if bc ≠ [] then
              { matched_classes := st.matched_classes + 1,
                matched_class_names := st.matched_class_names ++ [bc],
                missing_classes := st.missing_classes }
            else { st with missing_classes := st.missing_classes ++ [e.name] }
          | none => { st with missing_classes := st.missing_classes ++ [e.name] })
        st) := by
    intro es
    induction es with
    | nil => intro st h; exact h
    | cons e t ih =>
      intro st h
      rw [List.foldl_cons]
      cases hb : (bestStudentPuml e.name students st.matched_class_names th).1 with
      | none =>
        simp only [hb]
        exact ih _ ⟨h.1, h.2.1, h.2.2⟩
      | some bc =>
        by_cases hbc : bc ≠ []
        · simp only [hb, if_pos hbc]
          apply ih
          obtain ⟨hfresh, hmem⟩ :=
            bestStudentPuml_sound e.name students st.matched_class_names th bc hb
          refine ⟨?_, ?_, ?_⟩
          · exact h.1.append (List.nodup_singleton bc)
              (List.disjoint_singleton.mpr hfresh)
          · simp [h.2.1]
          · intro x hx
            rcases List.mem_append.mp hx with hx | hx
            · exact h.2.2 hx
            · rcases List.mem_singleton.mp hx with rfl
              exact hmem
        · simp only [hb, if_neg hbc]
          exact ih _ ⟨h.1, h.2.1, h.2.2⟩
  exact key etalon ⟨0, [], []⟩ ⟨List.nodup_nil, rfl, by simp⟩

/-- Claim C1 (amended): the one-to-one guarantee holds for
`compare_puml_with_puml` only.  There, the list of matched candidate names
never repeats a candidate (each matched candidate is removed from
consideration for later reference classes), the match counter equals the
number of distinct matched candidates, and hence at most
`len(student_classes)` matches are recorded.  In `compare_puml_with_json`
matched candidates are NOT removed, and one candidate can be matched to
several reference classes (see the counterexample). -/
theorem claim_C1_puml_matching_one_to_one (etalon students : List ClassInfo) (th : ℚ) :
    (pumlClassPhase etalon students th).matched_class_names.Nodup ∧
      (pumlClassPhase etalon students th).matched_classes =
        (pumlClassPhase etalon students th).matched_class_names.length ∧
      (pumlClassPhase etalon students th).matched_classes ≤ students.length := by
  obtain ⟨h1, h2, h3⟩ := pumlClassPhase_inv etalon students th
  refine ⟨h1, h2, ?_⟩
  rw [h2]
  classical
  have hc : (pumlClassPhase etalon students th).matched_class_names.toFinset.card =
      (pumlClassPhase etalon students th).matched_class_names.length :=
    List.toFinset_card_of_nodup h1
  calc (pumlClassPhase etalon students th).matched_class_names.length
      = _ := hc.symm
    _ ≤ (students.map (fun s => s.name)).toFinset.card := by
        apply Finset.card_le_card
        intro x hx
        simp only [List.mem_toFinset] at hx ⊢
        exact h3 hx
    _ ≤ (students.map (fun s => s.name)).length := List.toFinset_card_le _
    _ = students.length := List.length_map _ _

-- ### Output projections (the fields a caller reads off the result dict)

/-- The `similarity` field, present in every return shape. -/
def simOf : CompareOutput → ℚ
  | .failure _ s _ => s
  | .success r => r.similarity

/-- The `score` field (absent from two of the early-return dictionaries). -/
def scoreOf : CompareOutput → Option ℚ
  | .failure _ _ sc => sc
  | .success r => some r.score

/-- The `classes` metrics block of a full result. -/
def classesOf : CompareOutput → Option FacetResult
  | .success r => some r.classes
  | _ => none

/-- The `attributes` metrics block of a full result. -/
def attributesOf : CompareOutput → Option FacetResult
  | .success r => some r.attributes
  | _ => none

/-- The `diff.classes` block of a full result. -/
def classDiffOf : CompareOutput → Option ClassDiff
  | .success r => some r.class_diff
  | _ => none

-- ### Concrete evaluation of the double-match scenario (claims C1 and C2)

/-- Reference model with two classes whose lowercased names are both within
ratio 0.90 of the single candidate class name. -/
def dblE : List ClassInfo :=
  [⟨"abcde".toList, [], []⟩, ⟨"abcdex".toList, [], []⟩]

/-- The single-class candidate model of the double-match scenario. -/
def dblS : List ClassInfo := [⟨"abcde".toList, [], []⟩]

theorem ratio_abcde_abcde : smRatio "abcde".toList "abcde".toList = 1 := by
  rw [smRatio_eval _ _ 5 5 5 (by decide) (by decide) (by decide) (by decide)]
  norm_num

theorem ratio_abcdex_abcde : smRatio "abcdex".toList "abcde".toList = 10 / 11 := by
  rw [smRatio_eval _ _ 5 6 5 (by decide) (by decide) (by decide) (by decide)]
  norm_num

theorem dbl_buildLow_E :
    buildLow dblE = [("abcde".toList, ⟨"abcde".toList, [], []⟩),
      ("abcdex".toList, ⟨"abcdex".toList, [], []⟩)] := by
  decide

theorem dbl_buildLow_S :
    buildLow dblS = [("abcde".toList, ⟨"abcde".toList, [], []⟩)] := by
  decide

theorem dbl_best_1 :
    bestStudentLow "abcde".toList [("abcde".toList, ⟨"abcde".toList, [], []⟩)] =
      (1, some "abcde".toList) := by
  simp only [bestStudentLow, List.foldl_cons, List.foldl_nil]
  rw [ratio_abcde_abcde, if_pos (by norm_num : (1 : ℚ) > 0)]

theorem dbl_best_2 :
    bestStudentLow "abcdex".toList [("abcde".toList, ⟨"abcde".toList, [], []⟩)] =
      (10 / 11, some "abcde".toList) := by
  simp only [bestStudentLow, List.foldl_cons, List.foldl_nil]
  rw [ratio_abcdex_abcde, if_pos (by norm_num : (10 / 11 : ℚ) > 0)]

/-- The class phase of the double-match scenario: both reference classes are
matched to the one candidate, which the `matched_student_lows` set records
only once. -/
theorem dbl_classPhase :
    jsonClassPhase (buildLow dblE) (buildLow dblS) (9 / 10) =
      ⟨2,
       [("abcde".toList, some "abcde".toList, 1),
        ("abcdex".toList, some "abcde".toList, 10 / 11)],
       [some "abcde".toList]⟩ := by
  rw [dbl_buildLow_E, dbl_buildLow_S]
  simp only [jsonClassPhase, List.foldl_cons, List.foldl_nil]
  rw [dbl_best_1, dbl_best_2]
  rw [if_pos (by norm_num : (1 : ℚ) ≥ 9 / 10),
    if_pos (by norm_num : (10 / 11 : ℚ) ≥ 9 / 10)]
  simp

/-- Counterexample to claim C1: in `compare_puml_with_json` the candidate
class `abcde` is matched by BOTH reference classes `abcde` and `abcdex` in a
single comparison — the match count is 2 while only one distinct candidate
exists, so a matched candidate is NOT removed from consideration in this
variant. -/
theorem claim_C1_counterexample :
    (jsonClassPhase (buildLow dblE) (buildLow dblS) (9 / 10)).class_mapping.map
        (fun p => p.2.1) =
      [some "abcde".toList, some "abcde".toList] ∧
    (jsonClassPhase (buildLow dblE) (buildLow dblS) (9 / 10)).matched_classes = 2 ∧
    (buildLow dblS).length = 1 := by
  rw [dbl_classPhase, dbl_buildLow_S]
  exact ⟨rfl, rfl, rfl⟩

-- ### Claim C2: range of similarity and score

theorem ite_nonneg {c : Prop} [Decidable c] {x y : ℚ} (hx : 0 ≤ x) (hy : 0 ≤ y) :
    0 ≤ if c then x else y := by
  split
  · exact hx
  · exact hy

theorem f1Of_nonneg {p r : ℚ} (hp : 0 ≤ p) (hr : 0 ≤ r) : 0 ≤ f1Of p r := by
  rw [f1Of]
  split
  · next h =>
    exact div_nonneg (mul_nonneg (mul_nonneg (by norm_num) hp) hr) (le_of_lt h)
  · exact le_refl 0

theorem natCast_div_nonneg (m n : ℕ) : (0 : ℚ) ≤ (m : ℚ) / (n : ℚ) :=
  div_nonneg (Nat.cast_nonneg m) (Nat.cast_nonneg n)

/-- Claim C2 (amended): for non-empty inputs both variants return a full
result whose `similarity` is non-negative and whose `score` equals
`similarity * 100`; the upper bounds `similarity ≤ 1` and `score ≤ 100` do
NOT hold in general — in either variant several reference classes can match
one candidate class, driving a precision above 1 and the similarity above
1.0 (see the counterexample). -/
theorem claim_C2_similarity_nonneg_and_score (e s : List ClassInfo)
    (ct att : ℚ) (he : e ≠ []) (hs : s ≠ []) :
    (0 ≤ simOf (compare_puml_with_json e s ct att) ∧
      scoreOf (compare_puml_with_json e s ct att) =
        some (simOf (compare_puml_with_json e s ct att) * 100)) ∧
    (0 ≤ simOf (compare_puml_with_puml e s ct att) ∧
      scoreOf (compare_puml_with_puml e s ct att) =
        some (simOf (compare_puml_with_puml e s ct att) * 100)) := by
  obtain ⟨c, es, rfl⟩ := List.exists_cons_of_ne_nil he
  obtain ⟨d, ss, rfl⟩ := List.exists_cons_of_ne_nil hs
  constructor
  · simp only [compare_puml_with_json, simOf, scoreOf]
    refine ⟨?_, trivial⟩
    apply add_nonneg
    · apply mul_nonneg (by norm_num)
      exact f1Of_nonneg (ite_nonneg (natCast_div_nonneg _ _) (le_refl 0))
        (natCast_div_nonneg _ _)
    · apply mul_nonneg (by norm_num)
      apply ite_nonneg (by norm_num)
      exact f1Of_nonneg
        (ite_nonneg (by norm_num) (ite_nonneg (natCast_div_nonneg _ _) (le_refl 0)))
        (ite_nonneg (by norm_num) (ite_nonneg (natCast_div_nonneg _ _) (le_refl 0)))
  · simp only [compare_puml_with_puml, simOf, scoreOf]
    refine ⟨?_, trivial⟩
    apply f1Of_nonneg
    · apply ite_nonneg _ (by norm_num)
      apply div_nonneg _ (by norm_num)
      apply add_nonneg
      · exact ite_nonneg (ite_nonneg (natCast_div_nonneg _ _) (by norm_num)) (by norm_num)
      · exact ite_nonneg (ite_nonneg (natCast_div_nonneg _ _) (by norm_num)) (by norm_num)
    · apply ite_nonneg _ (by norm_num)
      apply div_nonneg _ (by norm_num)
      apply add_nonneg
      · exact ite_nonneg (ite_nonneg (natCast_div_nonneg _ _) (by norm_num)) (by norm_num)
      · exact ite_nonneg (ite_nonneg (natCast_div_nonneg _ _) (by norm_num)) (by norm_num)

theorem dbl_attrPhase :
    jsonAttrPhase
      [("abcde".toList, ⟨"abcde".toList, [], []⟩),
       ("abcdex".toList, ⟨"abcdex".toList, [], []⟩)]
      [("abcde".toList, ⟨"abcde".toList, [], []⟩)]
      ⟨2,
       [("abcde".toList, some "abcde".toList, 1),
        ("abcdex".toList, some "abcde".toList, 10 / 11)],
       [some "abcde".toList]⟩
      (17 / 20) = ⟨0, 0, 0, []⟩ := by
  rfl

/-- Counterexample to claim C2: on the (non-empty, well-formed) double-match
models, `compare_puml_with_json` returns `similarity = 6/5 > 1` (class
precision is 2 because two reference classes matched the single candidate),
so `0.0 ≤ similarity ≤ 1.0` is false. -/
theorem claim_C2_counterexample :
    simOf (compare_puml_with_json dblE dblS (9 / 10) (17 / 20)) = 6 / 5 ∧
      ¬ (6 / 5 : ℚ) ≤ 1 := by
  refine ⟨?_, by norm_num⟩
  have hcp := dbl_classPhase
  have hE := dbl_buildLow_E
  have hS := dbl_buildLow_S
  rw [hE, hS] at hcp
  simp only [dblE, dblS] at hcp hE hS ⊢
  simp only [compare_puml_with_json, simOf]
  rw [hE, hS, hcp, dbl_attrPhase]
  norm_num [f1Of]

/-- Witness for claim C2 (amended), at the concrete double-match input. -/
theorem claim_C2_witness :
    dblE ≠ [] ∧ dblS ≠ [] ∧
      (0 ≤ simOf (compare_puml_with_json dblE dblS (9 / 10) (17 / 20)) ∧
        scoreOf (compare_puml_with_json dblE dblS (9 / 10) (17 / 20)) =
          some (simOf (compare_puml_with_json dblE dblS (9 / 10) (17 / 20)) * 100)) ∧
      (0 ≤ simOf (compare_puml_with_puml dblE dblS (9 / 10) (17 / 20)) ∧
        scoreOf (compare_puml_with_puml dblE dblS (9 / 10) (17 / 20)) =
          some (simOf (compare_puml_with_puml dblE dblS (9 / 10) (17 / 20)) * 100)) := by
  have h := claim_C2_similarity_nonneg_and_score dblE dblS (9 / 10) (17 / 20)
    (by decide) (by decide)
  exact ⟨by decide, by decide, h.1, h.2⟩

-- ### Claim C4: attribute totals

/-- The contribution of one reference entry to the candidate attribute total
of `compare_puml_with_json`: the matched candidate's attribute count, or 0
for an unmatched reference. -/
def jsonStudentContrib (sl : List (List Char × ClassInfo))
    (cp : JsonClassPhase) (e : List Char × ClassInfo) : ℕ :=
  match lookupMapping cp.class_mapping e.1 with
  | some (some s_low, _) =>
    ((lookupLow sl s_low).getD ⟨[], [], []⟩).attributes.length
  | _ => 0

/-- The contribution of one reference entry to the matched-attribute total
of `compare_puml_with_json`. -/
def jsonMatchedContrib (sl : List (List Char × ClassInfo))
    (cp : JsonClassPhase) (th : ℚ) (e : List Char × ClassInfo) : ℕ :=
  match lookupMapping cp.class_mapping e.1 with
  | some (some s_low, _) =>
    (matchAttributesFn (e.2.attributes.map normalize_attribute)
      (((lookupLow sl s_low).getD ⟨[], [], []⟩).attributes.map normalize_attribute)
      th).1
  | _ => 0

theorem jsonAttrPhase_counts (el sl : List (List Char × ClassInfo))
    (cp : JsonClassPhase) (th : ℚ) :
    (jsonAttrPhase el sl cp th).etalon_attr_count =
      (el.map (fun e => e.2.attributes.length)).sum ∧
    (jsonAttrPhase el sl cp th).student_attr_count =
      (el.map (jsonStudentContrib sl cp)).sum ∧
    (jsonAttrPhase el sl cp th).matched_attrs =
      (el.map (jsonMatchedContrib sl cp th)).sum := by
  rw [jsonAttrPhase]
  -- the trailing unmatched-candidate loop never touches the counters
  have extra : ∀ (ss : List (List Char × ClassInfo)) (st : JsonAttrPhase),
      (ss.foldl
        (fun st s =>
          if some s.1 ∈ cp.matched_student_lows then st
          else
            let nStudent := s.2.attributes.map normalize_attribute
            { st with
              attribute_diffs := st.attribute_diffs ++
                (if nStudent ≠ [] then [⟨none, some s.2.name, [], nStudent⟩] else []) })
        st).etalon_attr_count = st.etalon_attr_count ∧
      (ss.foldl
        (fun st s =>
          if some s.1 ∈ cp.matched_student_lows then st
          else
            let nStudent := s.2.attributes.map normalize_attribute
            { st with
              attribute_diffs := st.attribute_diffs ++
                (if nStudent ≠ [] then [⟨none, some s.2.name, [], nStudent⟩] else []) })
        st).student_attr_count = st.student_attr_count ∧
      (ss.foldl
        (fun st s =>
          if some s.1 ∈ cp.matched_student_lows then st
          else
            let nStudent := s.2.attributes.map normalize_attribute
            { st with
              attribute_diffs := st.attribute_diffs ++
                (if nStudent ≠ [] then [⟨none, some s.2.name, [], nStudent⟩] else []) })
        st).matched_attrs = st.matched_attrs := by
    intro ss
    induction ss with
    | nil => intro st; exact ⟨rfl, rfl, rfl⟩
    | cons s t ih =>
      intro st
      rw [List.foldl_cons]
      by_cases hm : some s.1 ∈ cp.matched_student_lows
      · simpa [hm] using ih st
      · simp only [if_neg hm]
        exact ih _
  have main : ∀ (es : List (List Char × ClassInfo)) (st : JsonAttrPhase),
      (es.foldl
        (fun st e =>
          let nEtalon := e.2.attributes.map normalize_attribute
          let cnt := st.etalon_attr_count + nEtalon.length
          match lookupMapping cp.class_mapping e.1 with
          | some (some s_low, _) =>
            let s_cls := (lookupLow sl s_low).getD ⟨[], [], []⟩
            let nStudent := s_cls.attributes.map normalize_attribute
            let res := matchAttributesFn nEtalon nStudent th
            { etalon_attr_count := cnt,
              student_attr_count := st.student_attr_count + nStudent.length,
              matched_attrs := st.matched_attrs + res.1,
              attribute_diffs := st.attribute_diffs ++
                (if res.2.1 ≠ [] ∨ res.2.2 ≠ [] then
                  [⟨some e.2.name, some s_cls.name, res.2.1, res.2.2⟩] else []) }
          | _ =>
            { st with
              etalon_attr_count := cnt,
              attribute_diffs := st.attribute_diffs ++
                (if nEtalon ≠ [] then [⟨some e.2.name, none, nEtalon, []⟩] else []) })
        st).etalon_attr_count =
        st.etalon_attr_count + (es.map (fun e => e.2.attributes.length)).sum ∧
      (es.foldl
        (fun st e =>
          let nEtalon := e.2.attributes.map normalize_attribute
          let cnt := st.etalon_attr_count + nEtalon.length
          match lookupMapping cp.class_mapping e.1 with
          | some (some s_low, _) =>
            let s_cls := (lookupLow sl s_low).getD ⟨[], [], []⟩
            let nStudent := s_cls.attributes.map normalize_attribute
            let res := matchAttributesFn nEtalon nStudent th
            { etalon_attr_count := cnt,
              student_attr_count := st.student_attr_count + nStudent.length,
              matched_attrs := st.matched_attrs + res.1,
              attribute_diffs := st.attribute_diffs ++
                (if res.2.1 ≠ [] ∨ res.2.2 ≠ [] then
                  [⟨some e.2.name, some s_cls.name, res.2.1, res.2.2⟩] else []) }
          | _ =>
            { st with
              etalon_attr_count := cnt,
              attribute_diffs := st.attribute_diffs ++
                (if nEtalon ≠ [] then [⟨some e.2.name, none, nEtalon, []⟩] else []) })
        st).student_attr_count =
        st.student_attr_count + (es.map (jsonStudentContrib sl cp)).sum ∧
      (es.foldl
        (fun st e =>
          let nEtalon := e.2.attributes.map normalize_attribute
          let cnt := st.etalon_attr_count + nEtalon.length
          match lookupMapping cp.class_mapping e.1 with
          | some (some s_low, _) =>
            let s_cls := (lookupLow sl s_low).getD ⟨[], [], []⟩
            let nStudent := s_cls.attributes.map normalize_attribute
            let res := matchAttributesFn nEtalon nStudent th
            { etalon_attr_count := cnt,
              student_attr_count := st.student_attr_count + nStudent.length,
              matched_attrs := st.matched_attrs + res.1,
              attribute_diffs := st.attribute_diffs ++
                (if res.2.1 ≠ [] ∨ res.2.2 ≠ [] then
                  [⟨some e.2.name, some s_cls.name, res.2.1, res.2.2⟩] else []) }
          | _ =>
            { st with
              etalon_attr_count := cnt,
              attribute_diffs := st.attribute_diffs ++
                (if nEtalon ≠ [] then [⟨some e.2.name, none, nEtalon, []⟩] else []) })
        st).matched_attrs =
        st.matched_attrs + (es.map (jsonMatchedContrib sl cp th)).sum := by
    intro es
    induction es with
    | nil => intro st; exact ⟨by simp, by simp, by simp⟩
    | cons e t ih =>
      intro st
      rw [List.foldl_cons]
      cases hm : lookupMapping cp.class_mapping e.1 with
      | none =>
        simp only [hm]
        obtain ⟨ih1, ih2, ih3⟩ := ih
          { st with
            etalon_attr_count := st.etalon_attr_count +
              (e.2.attributes.map normalize_attribute).length,
            attribute_diffs := st.attribute_diffs ++
              (if (e.2.attributes.map normalize_attribute) ≠ [] then
                [⟨some e.2.name, none, e.2.attributes.map normalize_attribute, []⟩]
              else []) }
        refine ⟨?_, ?_, ?_⟩
        · rw [ih1]
          simp [jsonStudentContrib, List.length_map]
          omega
        · rw [ih2]
          simp [jsonStudentContrib, hm]
        · rw [ih3]
          simp [jsonMatchedContrib, hm]
      | some p =>
        obtain ⟨os, r⟩ := p
        cases os with
        | none =>
          simp only [hm]
          obtain ⟨ih1, ih2, ih3⟩ := ih
            { st with
              etalon_attr_count := st.etalon_attr_count +
                (e.2.attributes.map normalize_attribute).length,
              attribute_diffs := st.attribute_diffs ++
                (if (e.2.attributes.map normalize_attribute) ≠ [] then
                  [⟨some e.2.name, none, e.2.attributes.map normalize_attribute, []⟩]
                else []) }
          refine ⟨?_, ?_, ?_⟩
          · rw [ih1]
            simp [List.length_map]
            omega
          · rw [ih2]
            simp [jsonStudentContrib, hm]
          · rw [ih3]
            simp [jsonMatchedContrib, hm]
        | some s_low =>
          simp only [hm]
          obtain ⟨ih1, ih2, ih3⟩ := ih
            { etalon_attr_count := st.etalon_attr_count +
                (e.2.attributes.map normalize_attribute).length,
              student_attr_count := st.student_attr_count +
                (((lookupLow sl s_low).getD ⟨[], [], []⟩).attributes.map
                  normalize_attribute).length,
              matched_attrs := st.matched_attrs +
                (matchAttributesFn (e.2.attributes.map normalize_attribute)
                  (((lookupLow sl s_low).getD ⟨[], [], []⟩).attributes.map
                    normalize_attribute) th).1,
              attribute_diffs := st.attribute_diffs ++
                (if (matchAttributesFn (e.2.attributes.map normalize_attribute)
                      (((lookupLow sl s_low).getD ⟨[], [], []⟩).attributes.map
                        normalize_attribute) th).2.1 ≠ [] ∨
                    (matchAttributesFn (e.2.attributes.map normalize_attribute)
                      (((lookupLow sl s_low).getD ⟨[], [], []⟩).attributes.map
                        normalize_attribute) th).2.2 ≠ [] then
                  [⟨some e.2.name, some ((lookupLow sl s_low).getD ⟨[], [], []⟩).name,
                    (matchAttributesFn (e.2.attributes.map normalize_attribute)
                      (((lookupLow sl s_low).getD ⟨[], [], []⟩).attributes.map
                        normalize_attribute) th).2.1,
                    (matchAttributesFn (e.2.attributes.map normalize_attribute)
                      (((lookupLow sl s_low).getD ⟨[], [], []⟩).attributes.map
                        normalize_attribute) th).2.2⟩] else []) }
          refine ⟨?_, ?_, ?_⟩
          · rw [ih1]
            simp [List.length_map]
            omega
          · rw [ih2]
            simp only [List.map_cons, List.sum_cons, jsonStudentContrib, hm,
              List.length_map]
            omega
          · rw [ih3]
            simp only [List.map_cons, List.sum_cons, jsonMatchedContrib, hm]
            omega
  obtain ⟨m1, m2, m3⟩ := main el ⟨0, 0, 0, []⟩
  obtain ⟨e1, e2, e3⟩ := extra sl (el.foldl _ ⟨0, 0, 0, []⟩)
  exact ⟨by rw [e1, m1]; simp, by rw [e2, m2]; simp, by rw [e3, m3]; simp⟩

/-- Claim C4 (amended): in `compare_puml_with_puml` both attribute totals
count the attributes of every class, matched or not (they are whole-model
sums).  In `compare_puml_with_json` the reference total counts the
attributes of every (lowercase-deduplicated) reference class, but the
candidate total counts only the attributes of candidate classes matched to
some reference — once per matching reference — and the attributes of
unmatched candidate classes are reported as extra yet never counted in the
precision denominator. -/
theorem claim_C4_attribute_totals (e s : List ClassInfo) (ct att : ℚ)
    (he : e ≠ []) (hs : s ≠ []) :
    ((attributesOf (compare_puml_with_puml e s ct att)).map (fun a => a.etalon_count) =
        some ((e.map (fun c => c.attributes.length)).sum) ∧
      (attributesOf (compare_puml_with_puml e s ct att)).map (fun a => a.student_count) =
        some ((s.map (fun c => c.attributes.length)).sum)) ∧
    (attributesOf (compare_puml_with_json e s ct att)).map (fun a => a.etalon_count) =
      some (((buildLow e).map (fun p => p.2.attributes.length)).sum) ∧
    (attributesOf (compare_puml_with_json e s ct att)).map (fun a => a.student_count) =
      some (((buildLow e).map
        (jsonStudentContrib (buildLow s)
          (jsonClassPhase (buildLow e) (buildLow s) ct))).sum) := by
  obtain ⟨c, es, rfl⟩ := List.exists_cons_of_ne_nil he
  obtain ⟨d, ss, rfl⟩ := List.exists_cons_of_ne_nil hs
  refine ⟨⟨?_, ?_⟩, ?_, ?_⟩
  · simp only [compare_puml_with_puml, attributesOf, Option.map_some']
  · simp only [compare_puml_with_puml, attributesOf, Option.map_some']
  · simp only [compare_puml_with_json, attributesOf, Option.map_some']
    rw [(jsonAttrPhase_counts _ _ _ _).1]
  · simp only [compare_puml_with_json, attributesOf, Option.map_some']
    rw [(jsonAttrPhase_counts _ _ _ _).2.1]

/-- Candidate model of the C4 counterexample: an unmatched second class
carrying one attribute. -/
def c4S : List ClassInfo :=
  [⟨"abcde".toList, ["- x: int".toList], []⟩, ⟨"zzzzz".toList, ["- y: str".toList], []⟩]

/-- Reference model of the C4 counterexample. -/
def c4E : List ClassInfo := [⟨"abcde".toList, ["- x: int".toList], []⟩]

theorem ratio_abcde_zzzzz : smRatio "abcde".toList "zzzzz".toList = 0 := by
  rw [smRatio_eval _ _ 0 5 5 (by decide) (by decide) (by decide) (by decide)]
  norm_num

theorem c4_classPhase :
    jsonClassPhase (buildLow c4E) (buildLow c4S) (9 / 10) =
      ⟨1, [("abcde".toList, some "abcde".toList, 1)], [some "abcde".toList]⟩ := by
  have hE : buildLow c4E = [("abcde".toList, ⟨"abcde".toList, ["- x: int".toList], []⟩)] := by
    decide
  have hS : buildLow c4S =
      [("abcde".toList, ⟨"abcde".toList, ["- x: int".toList], []⟩),
       ("zzzzz".toList, ⟨"zzzzz".toList, ["- y: str".toList], []⟩)] := by
    decide
  rw [hE, hS]
  simp only [jsonClassPhase, List.foldl_cons, List.foldl_nil]
  have hb : bestStudentLow "abcde".toList
      [("abcde".toList, ⟨"abcde".toList, ["- x: int".toList], []⟩),
       ("zzzzz".toList, ⟨"zzzzz".toList, ["- y: str".toList], []⟩)] =
      (1, some "abcde".toList) := by
    simp only [bestStudentLow, List.foldl_cons, List.foldl_nil]
    rw [ratio_abcde_abcde, if_pos (by norm_num : (1 : ℚ) > 0), ratio_abcde_zzzzz,
      if_neg (by norm_num : ¬ (0 : ℚ) > 1)]
  rw [hb, if_pos (by norm_num : (1 : ℚ) ≥ 9 / 10)]
  simp

/-- Counterexample to claim C4: in `compare_puml_with_json` the candidate
attribute total is 1 — the unmatched candidate class `zzzzz` carries one
attribute that the code reports as extra but does NOT count toward the
precision denominator, although the whole candidate model carries 2. -/
theorem claim_C4_counterexample :
    (attributesOf (compare_puml_with_json c4E c4S (9 / 10) (17 / 20))).map
        (fun a => a.student_count) = some 1 ∧
      (c4S.map (fun c => c.attributes.length)).sum = 2 := by
  refine ⟨?_, by decide⟩
  have h := c4_classPhase
  simp only [c4E, c4S] at h ⊢
  simp only [compare_puml_with_json, attributesOf, Option.map_some']
  rw [(jsonAttrPhase_counts _ _ _ _).2.1, h]
  decide

/-- Witness for claim C4 (amended), at the concrete counterexample input. -/
theorem claim_C4_witness :
    c4E ≠ [] ∧ c4S ≠ [] ∧
      (((attributesOf (compare_puml_with_puml c4E c4S (9 / 10) (17 / 20))).map
          (fun a => a.etalon_count) =
        some ((c4E.map (fun c => c.attributes.length)).sum) ∧
       (attributesOf (compare_puml_with_puml c4E c4S (9 / 10) (17 / 20))).map
          (fun a => a.student_count) =
        some ((c4S.map (fun c => c.attributes.length)).sum)) ∧
      (attributesOf (compare_puml_with_json c4E c4S (9 / 10) (17 / 20))).map
          (fun a => a.etalon_count) =
        some (((buildLow c4E).map (fun p => p.2.attributes.length)).sum) ∧
      (attributesOf (compare_puml_with_json c4E c4S (9 / 10) (17 / 20))).map
          (fun a => a.student_count) =
        some (((buildLow c4E).map
          (jsonStudentContrib (buildLow c4S)
            (jsonClassPhase (buildLow c4E) (buildLow c4S) (9 / 10)))).sum)) :=
  ⟨by decide, by decide,
    claim_C4_attribute_totals c4E c4S (9 / 10) (17 / 20) (by decide) (by decide)⟩

-- ### Claim C8: zero-attribute neutrality

theorem matchAttributesFn_nil_fst (ys : List (List Char)) (th : ℚ) :
    (matchAttributesFn [] ys th).1 = 0 := by
  rw [matchAttributesFn]
  have h : ∀ (l : List (ℕ × List Char)),
      (l.foldl
        (fun acc si =>
          let best := bestEtalonIdx [] acc.1 si.2
          match best.1 with
          | some bIdx =>
            if best.2 ≥ th then (acc.1 ++ [bIdx], acc.2 ++ [si.1]) else acc
          | none => acc)
        ([], [])) = (([] : List ℕ), ([] : List ℕ)) := by
    intro l
    induction l with
    | nil => rfl
    | cons a t ih =>
      rw [List.foldl_cons]
      have hb : bestEtalonIdx [] [] a.2 = (none, 0) := rfl
      simpa [hb] using ih
  simp [matchAttrSets, h]

theorem buildLow_mem {cs : List ClassInfo} {p : List Char × ClassInfo}
    (h : p ∈ buildLow cs) : p.2 ∈ cs := by
  rw [buildLow] at h
  have key : ∀ (l : List ClassInfo) (acc : List (List Char × ClassInfo)),
      (∀ q ∈ acc, q.2 ∈ cs) → (∀ c ∈ l, c ∈ cs) →
      ∀ q ∈ l.foldl
        (fun acc c =>
          let key := lowerStr c.name
          if acc.any (fun p => p.1 == key) then
            acc.map (fun p => if p.1 == key then (key, c) else p)
          else acc ++ [(key, c)])
        acc, q.2 ∈ cs := by
    intro l
    induction l with
    | nil => intro acc hacc _ q hq; exact hacc q hq
    | cons c t ih =>
      intro acc hacc hl q hq
      rw [List.foldl_cons] at hq
      by_cases hc : acc.any (fun p => p.1 == lowerStr c.name) = true
      · simp only [hc, if_true] at hq
        refine ih (acc.map
            (fun p => if p.1 == lowerStr c.name then (lowerStr c.name, c) else p))
          ?_ (fun x hx => hl x (List.mem_cons_of_mem c hx)) q hq
        intro x hx
        rcases List.mem_map.mp hx with ⟨y, hy, he⟩
        by_cases hk : (y.1 == lowerStr c.name) = true
        · rw [if_pos hk] at he
          rw [← he]
          exact hl c (List.mem_cons_self c t)
        · rw [if_neg hk] at he
          rw [← he]
          exact hacc y hy
      · simp only [hc, if_false, Bool.false_eq_true] at hq
        refine ih (acc ++ [(lowerStr c.name, c)])
          ?_ (fun x hx => hl x (List.mem_cons_of_mem c hx)) q hq
        intro x hx
        rcases List.mem_append.mp hx with hx | hx
        · exact hacc x hx
        · rcases List.mem_singleton.mp hx with rfl
          exact hl c (List.mem_cons_self c t)
  exact key cs [] (by simp) (fun c hc => hc) p h

theorem pumlAttrPhase_matched_zero (es ss : List ClassInfo)
    (matched : List (List Char)) (ct att : ℚ)
    (hea : ∀ c ∈ es, c.attributes = []) :
    (pumlAttrPhase es ss matched ct att).total_matched_attrs = 0 := by
  rw [pumlAttrPhase]
  have key : ∀ (l : List ClassInfo) (st : PumlAttrPhase),
      (∀ c ∈ l, c.attributes = []) →
      (l.foldl
        (fun st e =>
          match pumlAttrPartner e.name ss matched ct with
          | some sname =>
            if sname ≠ [] then
              let s_cls := lookupClass ss sname
              let res := matchAttributesFn e.attributes s_cls.attributes att
              { total_matched_attrs := st.total_matched_attrs + res.1,
                total_missing_attrs := st.total_missing_attrs ++ res.2.1,
                total_extra_attrs := st.total_extra_attrs ++ res.2.2,
                all_attr_diffs := st.all_attr_diffs ++
                  (if res.2.1 ≠ [] ∨ res.2.2 ≠ [] then
                    [⟨some e.name, some sname, res.2.1, res.2.2⟩] else []) }
            else { st with total_missing_attrs := st.total_missing_attrs ++ e.attributes }
          | none => { st with total_missing_attrs := st.total_missing_attrs ++ e.attributes })
        st).total_matched_attrs = st.total_matched_attrs := by
    intro l
    induction l with
    | nil => intro st _; rfl
    | cons e t ih =>
      intro st hl
      rw [List.foldl_cons]
      have he : e.attributes = [] := hl e (List.mem_cons_self e t)
      have ht : ∀ c ∈ t, c.attributes = [] := fun c hc => hl c (List.mem_cons_of_mem e hc)
      cases hp : pumlAttrPartner e.name ss matched ct with
      | none => simp only [hp]; exact ih _ ht
      | some sname =>
        by_cases hsn : sname ≠ []
        · simp only [hp, if_pos hsn]
          rw [ih _ ht]
          simp [he, matchAttributesFn_nil_fst]
        · simp only [hp, if_neg hsn]
          exact ih _ ht
  exact key es ⟨0, [], [], []⟩ hea

theorem sum_attr_lengths_zero {cs : List ClassInfo}
    (h : ∀ c ∈ cs, c.attributes = []) :
    (cs.map (fun c => c.attributes.length)).sum = 0 := by
  apply List.sum_eq_zero
  intro x hx
  rcases List.mem_map.mp hx with ⟨c, hc, rfl⟩
  rw [h c hc]
  rfl

/-- Claim C8: if every class on both sides has zero attributes (so both
attribute totals are zero), then both variants report attribute precision,
recall and F1 all equal to 1.0 (with zero counts), rather than 0 or an
undefined value. -/
theorem claim_C8_zero_attribute_neutrality (e s : List ClassInfo) (ct att : ℚ)
    (he : e ≠ []) (hs : s ≠ [])
    (hea : ∀ c ∈ e, c.attributes = []) (hsa : ∀ c ∈ s, c.attributes = []) :
    attributesOf (compare_puml_with_json e s ct att) = some ⟨1, 1, 1, 0, 0, 0⟩ ∧
      attributesOf (compare_puml_with_puml e s ct att) = some ⟨1, 1, 1, 0, 0, 0⟩ := by
  constructor
  · obtain ⟨c, es, rfl⟩ := List.exists_cons_of_ne_nil he
    have h1 : (jsonAttrPhase (buildLow (c :: es)) (buildLow s)
        (jsonClassPhase (buildLow (c :: es)) (buildLow s) ct) att).etalon_attr_count = 0 := by
      rw [(jsonAttrPhase_counts _ _ _ _).1]
      apply List.sum_eq_zero
      intro x hx
      rcases List.mem_map.mp hx with ⟨p, hp, rfl⟩
      rw [hea p.2 (buildLow_mem hp)]
      rfl
    have h2 : (jsonAttrPhase (buildLow (c :: es)) (buildLow s)
        (jsonClassPhase (buildLow (c :: es)) (buildLow s) ct) att).student_attr_count = 0 := by
      rw [(jsonAttrPhase_counts _ _ _ _).2.1]
      apply List.sum_eq_zero
      intro x hx
      rcases List.mem_map.mp hx with ⟨p, hp, rfl⟩
      rw [jsonStudentContrib]
      cases hm : lookupMapping (jsonClassPhase (buildLow (c :: es)) (buildLow s)
          ct).class_mapping p.1 with
      | none => rfl
      | some q =>
        obtain ⟨os, r⟩ := q
        cases os with
        | none => rfl
        | some s_low =>
          simp only
          cases hl : lookupLow (buildLow s) s_low with
          | none => rfl
          | some cls =>
            simp only [Option.getD_some]
            have : cls ∈ s := by
              rw [lookupLow] at hl
              rcases Option.map_eq_some'.mp hl with ⟨q, hq, rfl⟩
              exact buildLow_mem (List.mem_of_find?_eq_some hq)
            rw [hsa cls this]
            rfl
    have h3 : (jsonAttrPhase (buildLow (c :: es)) (buildLow s)
        (jsonClassPhase (buildLow (c :: es)) (buildLow s) ct) att).matched_attrs = 0 := by
      rw [(jsonAttrPhase_counts _ _ _ _).2.2]
      apply List.sum_eq_zero
      intro x hx
      rcases List.mem_map.mp hx with ⟨p, hp, rfl⟩
      rw [jsonMatchedContrib]
      cases hm : lookupMapping (jsonClassPhase (buildLow (c :: es)) (buildLow s)
          ct).class_mapping p.1 with
      | none => rfl
      | some q =>
        obtain ⟨os, r⟩ := q
        cases os with
        | none => rfl
        | some s_low =>
          simp only
          rw [hea p.2 (buildLow_mem hp)]
          exact matchAttributesFn_nil_fst _ att
    simp only [compare_puml_with_json, attributesOf]
    rw [h1, h2, h3]
    simp
  · obtain ⟨c, es, rfl⟩ := List.exists_cons_of_ne_nil he
    obtain ⟨d, ss, rfl⟩ := List.exists_cons_of_ne_nil hs
    have heac : ((c :: es).map (fun x => x.attributes.length)).sum = 0 :=
      sum_attr_lengths_zero hea
    have hsac : ((d :: ss).map (fun x => x.attributes.length)).sum = 0 :=
      sum_attr_lengths_zero hsa
    have hmat := pumlAttrPhase_matched_zero (c :: es) (d :: ss)
      (pumlClassPhase (c :: es) (d :: ss) ct).matched_class_names ct att hea
    simp only [compare_puml_with_puml, attributesOf]
    rw [heac, hsac, hmat]
    norm_num [f1Of]

/-- Witness for claim C8, on two one-class models without attributes. -/
theorem claim_C8_witness :
    attributesOf (compare_puml_with_json [⟨"a".toList, [], []⟩]
        [⟨"b".toList, [], []⟩] (9 / 10) (17 / 20)) = some ⟨1, 1, 1, 0, 0, 0⟩ ∧
      attributesOf (compare_puml_with_puml [⟨"a".toList, [], []⟩]
        [⟨"b".toList, [], []⟩] (9 / 10) (17 / 20)) = some ⟨1, 1, 1, 0, 0, 0⟩ :=
  claim_C8_zero_attribute_neutrality [⟨"a".toList, [], []⟩] [⟨"b".toList, [], []⟩]
    (9 / 10) (17 / 20) (by decide) (by decide) (by decide) (by decide)

-- ### Claim C6: overall-score aggregation formulas

/-- The averaging used by `compare_puml_with_puml` (lines 522-529): the
plain average, replaced by `1.0` whenever the two addends sum to zero. -/
def avgOr1 (x y : ℚ) : ℚ := if x + y > 0 then (x + y) / 2 else 1

/-- Claim C6 (amended): for non-empty inputs, `compare_puml_with_json`
returns `similarity = 0.6·F1_classes + 0.4·F1_attributes`, while
`compare_puml_with_puml` first averages the class and attribute precisions
and recalls — but with a fallback: whenever the two precisions (resp.
recalls) sum to zero, the average is replaced by `1.0` rather than `0.0` —
and returns the F1 of those two (fallback-guarded) averages; in both
variants `score = similarity * 100`.  Without the fallback clause the claim
fails: two disjoint one-class models with attributes give zero precisions
and recalls, the claimed F1-of-averages is 0, yet the code returns
`similarity = 1.0` (see the counterexample). -/
theorem claim_C6_aggregation_formulas (e s : List ClassInfo) (ct att : ℚ)
    (he : e ≠ []) (hs : s ≠ []) :
    (simOf (compare_puml_with_json e s ct att) =
        (6 / 10) * ((classesOf (compare_puml_with_json e s ct att)).elim 0
          (fun c => c.f1)) +
        (4 / 10) * ((attributesOf (compare_puml_with_json e s ct att)).elim 0
          (fun a => a.f1)) ∧
      scoreOf (compare_puml_with_json e s ct att) =
        some (simOf (compare_puml_with_json e s ct att) * 100)) ∧
    (simOf (compare_puml_with_puml e s ct att) =
        f1Of
          (avgOr1
            ((classesOf (compare_puml_with_puml e s ct att)).elim 0 (fun c => c.precision))
            ((attributesOf (compare_puml_with_puml e s ct att)).elim 0 (fun a => a.precision)))
          (avgOr1
            ((classesOf (compare_puml_with_puml e s ct att)).elim 0 (fun c => c.recl))
            ((attributesOf (compare_puml_with_puml e s ct att)).elim 0 (fun a => a.recl))) ∧
      scoreOf (compare_puml_with_puml e s ct att) =
        some (simOf (compare_puml_with_puml e s ct att) * 100)) := by
  obtain ⟨c, es, rfl⟩ := List.exists_cons_of_ne_nil he
  obtain ⟨d, ss, rfl⟩ := List.exists_cons_of_ne_nil hs
  constructor
  · simp only [compare_puml_with_json, simOf, scoreOf, classesOf, attributesOf,
      Option.elim]
    exact ⟨trivial, trivial⟩
  · simp only [compare_puml_with_puml, simOf, scoreOf, classesOf, attributesOf,
      Option.elim, avgOr1]
    exact ⟨trivial, trivial⟩

/-- Reference model of the C6 counterexample: one class, one attribute,
fully disjoint from the candidate. -/
def c6E : List ClassInfo := [⟨"aaaaa".toList, ["- x: int".toList], []⟩]

/-- Candidate model of the C6 counterexample. -/
def c6S : List ClassInfo := [⟨"zzzzz".toList, ["- y: str".toList], []⟩]

theorem ratio_aaaaa_zzzzz : smRatio "aaaaa".toList "zzzzz".toList = 0 := by
  rw [smRatio_eval _ _ 0 5 5 (by decide) (by decide) (by decide) (by decide)]
  norm_num

theorem c6_classPhase :
    pumlClassPhase c6E c6S (9 / 10) = ⟨0, [], ["aaaaa".toList]⟩ := by
  simp only [c6E, c6S, pumlClassPhase, List.foldl_cons, List.foldl_nil,
    bestStudentPuml]
  rw [ratio_aaaaa_zzzzz]
  rw [if_neg (by norm_num : ¬ ((0 : ℚ) ≥ 9 / 10 ∧ (0 : ℚ) > 0))]
  simp

theorem c6_attrPhase :
    pumlAttrPhase c6E c6S [] (9 / 10) (17 / 20) =
      ⟨0, ["- x: int".toList], [], []⟩ := by
  rfl

/-- Counterexample to claim C6: on two fully disjoint non-empty models,
`compare_puml_with_puml` returns `similarity = 1.0` (and score 100) even
though all four precision/recall values are 0 — the claimed
"F1 computed from the two averages" would be `f1Of 0 0 = 0`.  The code
replaces a zero average by 1.0 before computing the F1. -/
theorem claim_C6_counterexample :
    simOf (compare_puml_with_puml c6E c6S (9 / 10) (17 / 20)) = 1 ∧
      (classesOf (compare_puml_with_puml c6E c6S (9 / 10) (17 / 20))).map
        (fun c => c.precision) = some 0 ∧
      (classesOf (compare_puml_with_puml c6E c6S (9 / 10) (17 / 20))).map
        (fun c => c.recl) = some 0 ∧
      (attributesOf (compare_puml_with_puml c6E c6S (9 / 10) (17 / 20))).map
        (fun a => a.precision) = some 0 ∧
      (attributesOf (compare_puml_with_puml c6E c6S (9 / 10) (17 / 20))).map
        (fun a => a.recl) = some 0 ∧
      f1Of ((0 + 0) / 2) ((0 + 0) / 2) = 0 := by
  have hcp := c6_classPhase
  have hap := c6_attrPhase
  have hnames : (pumlClassPhase c6E c6S (9 / 10)).matched_class_names = [] := by
    rw [hcp]
  simp only [c6E, c6S] at hcp hap hnames ⊢
  simp only [compare_puml_with_puml, simOf, classesOf, attributesOf, Option.map_some']
  rw [hcp]
  rw [show (pumlAttrPhase [⟨"aaaaa".toList, ["- x: int".toList], []⟩]
      [⟨"zzzzz".toList, ["- y: str".toList], []⟩]
      (⟨0, [], ["aaaaa".toList]⟩ : PumlClassPhase).matched_class_names
      (9 / 10) (17 / 20)) =
      (⟨0, ["- x: int".toList], [], []⟩ : PumlAttrPhase) from hap]
  norm_num [f1Of, avgOr1]

/-- Witness for claim C6 (amended), at the disjoint-models input. -/
theorem claim_C6_witness :
    c6E ≠ [] ∧ c6S ≠ [] ∧
      (simOf (compare_puml_with_json c6E c6S (9 / 10) (17 / 20)) =
          (6 / 10) * ((classesOf (compare_puml_with_json c6E c6S (9 / 10) (17 / 20))).elim 0
            (fun c => c.f1)) +
          (4 / 10) * ((attributesOf (compare_puml_with_json c6E c6S (9 / 10) (17 / 20))).elim 0
            (fun a => a.f1)) ∧
        scoreOf (compare_puml_with_json c6E c6S (9 / 10) (17 / 20)) =
          some (simOf (compare_puml_with_json c6E c6S (9 / 10) (17 / 20)) * 100)) ∧
      (simOf (compare_puml_with_puml c6E c6S (9 / 10) (17 / 20)) =
          f1Of
            (avgOr1
              ((classesOf (compare_puml_with_puml c6E c6S (9 / 10) (17 / 20))).elim 0
                (fun c => c.precision))
              ((attributesOf (compare_puml_with_puml c6E c6S (9 / 10) (17 / 20))).elim 0
                (fun a => a.precision)))
            (avgOr1
              ((classesOf (compare_puml_with_puml c6E c6S (9 / 10) (17 / 20))).elim 0
                (fun c => c.recl))
              ((attributesOf (compare_puml_with_puml c6E c6S (9 / 10) (17 / 20))).elim 0
                (fun a => a.recl))) ∧
        scoreOf (compare_puml_with_puml c6E c6S (9 / 10) (17 / 20)) =
          some (simOf (compare_puml_with_puml c6E c6S (9 / 10) (17 / 20)) * 100)) :=
  ⟨by decide, by decide,
    claim_C6_aggregation_formulas c6E c6S (9 / 10) (17 / 20) (by decide) (by decide)⟩

-- ### Claim C3: case sensitivity of class alignment

/-- Two classes that differ at most in the letter case of their names. -/
def CaseEq (a b : ClassInfo) : Prop :=
  lowerStr a.name = lowerStr b.name ∧ a.attributes = b.attributes

theorem any_key_eq {acc₁ acc₂ : List (List Char × ClassInfo)}
    (h : acc₁.map Prod.fst = acc₂.map Prod.fst) (key : List Char) :
    acc₁.any (fun p => p.1 == key) = acc₂.any (fun p => p.1 == key) := by
  have lift : ∀ (l : List (List Char × ClassInfo)),
      l.any (fun p => p.1 == key) = (l.map Prod.fst).any (fun k => k == key) := by
    intro l
    induction l with
    | nil => rfl
    | cons a t ih => simp [ih]
  rw [lift, lift, h]

theorem overwrite_keys (acc : List (List Char × ClassInfo)) (key : List Char)
    (c : ClassInfo) :
    (acc.map (fun p => if p.1 == key then (key, c) else p)).map Prod.fst =
      (acc.map Prod.fst).map (fun k => if k == key then key else k) := by
  rw [List.map_map, List.map_map]
  apply List.map_congr_left
  intro p _
  by_cases hk : p.1 = key
  · simp [hk]
  · simp [hk]

theorem buildLow_keys {cs₁ cs₂ : List ClassInfo}
    (h : List.Forall₂ CaseEq cs₁ cs₂) :
    (buildLow cs₁).map Prod.fst = (buildLow cs₂).map Prod.fst := by
  rw [buildLow, buildLow]
  have key : ∀ (l₁ l₂ : List ClassInfo), List.Forall₂ CaseEq l₁ l₂ →
      ∀ (acc₁ acc₂ : List (List Char × ClassInfo)),
      acc₁.map Prod.fst = acc₂.map Prod.fst →
      (l₁.foldl
        (fun acc c =>
          let key := lowerStr c.name
          if acc.any (fun p => p.1 == key) then
            acc.map (fun p => if p.1 == key then (key, c) else p)
          else acc ++ [(key, c)])
        acc₁).map Prod.fst =
      (l₂.foldl
        (fun acc c =>
          let key := lowerStr c.name
          if acc.any (fun p => p.1 == key) then
            acc.map (fun p => if p.1 == key then (key, c) else p)
          else acc ++ [(key, c)])
        acc₂).map Prod.fst := by
    intro l₁ l₂ hrel
    induction hrel with
    | nil => intro acc₁ acc₂ hacc; exact hacc
    | cons hc hrest ih =>
      intro acc₁ acc₂ hacc
      rename_i c₁ c₂ t₁ t₂
      rw [List.foldl_cons, List.foldl_cons]
      have hkey : lowerStr c₁.name = lowerStr c₂.name := hc.1
      have hany := any_key_eq hacc (lowerStr c₁.name)
      by_cases ha : acc₁.any (fun p => p.1 == lowerStr c₁.name) = true
      · have ha₂ : acc₂.any (fun p => p.1 == lowerStr c₂.name) = true := by
          rw [← hkey, ← hany]; exact ha
        simp only [ha, ha₂, if_true]
        apply ih
        rw [overwrite_keys, overwrite_keys, hacc, hkey]
      · have ha₂ : ¬ acc₂.any (fun p => p.1 == lowerStr c₂.name) = true := by
          rw [← hkey, ← hany]; exact ha
        simp only [ha, ha₂, if_false, Bool.false_eq_true]
        apply ih
        simp [hacc, hkey]
  exact key cs₁ cs₂ h [] [] rfl

theorem buildLow_key_name {cs : List ClassInfo} :
    ∀ p ∈ buildLow cs, p.1 = lowerStr p.2.name := by
  rw [buildLow]
  have key : ∀ (l : List ClassInfo) (acc : List (List Char × ClassInfo)),
      (∀ q ∈ acc, q.1 = lowerStr q.2.name) →
      ∀ p ∈ l.foldl
        (fun acc c =>
          let key := lowerStr c.name
          if acc.any (fun p => p.1 == key) then
            acc.map (fun p => if p.1 == key then (key, c) else p)
          else acc ++ [(key, c)])
        acc, p.1 = lowerStr p.2.name := by
    intro l
    induction l with
    | nil => intro acc hacc p hp; exact hacc p hp
    | cons c t ih =>
      intro acc hacc p hp
      rw [List.foldl_cons] at hp
      by_cases hc : acc.any (fun q => q.1 == lowerStr c.name) = true
      · simp only [hc, if_true] at hp
        refine ih _ ?_ p hp
        intro q hq
        rcases List.mem_map.mp hq with ⟨y, hy, he⟩
        by_cases hk : (y.1 == lowerStr c.name) = true
        · rw [if_pos hk] at he
          rw [← he]
        · rw [if_neg hk] at he
          rw [← he]
          exact hacc y hy
      · simp only [hc, if_false, Bool.false_eq_true] at hp
        refine ih _ ?_ p hp
        intro q hq
        rcases List.mem_append.mp hq with hq | hq
        · exact hacc q hq
        · rcases List.mem_singleton.mp hq with rfl
          rfl
  exact key cs [] (by simp)

theorem bestStudentLow_keys {sl₁ sl₂ : List (List Char × ClassInfo)}
    (h : sl₁.map Prod.fst = sl₂.map Prod.fst) (k : List Char) :
    bestStudentLow k sl₁ = bestStudentLow k sl₂ := by
  rw [bestStudentLow, bestStudentLow, ← List.foldl_map Prod.fst
    (fun (acc : ℚ × Option (List Char)) s1 =>
      if smRatio k s1 > acc.1 then (smRatio k s1, some s1) else acc),
    ← List.foldl_map Prod.fst
    (fun (acc : ℚ × Option (List Char)) s1 =>
      if smRatio k s1 > acc.1 then (smRatio k s1, some s1) else acc), h]

theorem jsonClassPhase_keys {el₁ el₂ sl₁ sl₂ : List (List Char × ClassInfo)}
    (hel : el₁.map Prod.fst = el₂.map Prod.fst)
    (hsl : sl₁.map Prod.fst = sl₂.map Prod.fst) (th : ℚ) :
    jsonClassPhase el₁ sl₁ th = jsonClassPhase el₂ sl₂ th := by
  rw [jsonClassPhase, jsonClassPhase]
  have hbody : ∀ sl', sl'.map Prod.fst = sl₂.map Prod.fst →
      ∀ (l : List (List Char × ClassInfo)) (st : JsonClassPhase),
      l.foldl
        (fun st e =>
          let best := bestStudentLow e.1 sl'
          if best.1 ≥ th then
            { matched_classes := st.matched_classes + 1,
              class_mapping := st.class_mapping ++ [(e.1, best.2, best.1)],
              matched_student_lows :=
                if best.2 ∈ st.matched_student_lows then st.matched_student_lows
                else st.matched_student_lows ++ [best.2] }
          else st)
        st =
      (l.map Prod.fst).foldl
        (fun st k =>
          let best := bestStudentLow k sl₂
          if best.1 ≥ th then
            { matched_classes := st.matched_classes + 1,
              class_mapping := st.class_mapping ++ [(k, best.2, best.1)],
              matched_student_lows :=
                if best.2 ∈ st.matched_student_lows then st.matched_student_lows
                else st.matched_student_lows ++ [best.2] }
          else st)
        st := by
    intro sl' hsl' l
    induction l with
    | nil => intro st; rfl
    | cons e t ih =>
      intro st
      rw [List.foldl_cons, List.map_cons, List.foldl_cons,
        bestStudentLow_keys hsl' e.1]
      exact ih _
  rw [hbody sl₁ (by rw [hsl]), hbody sl₂ rfl, hel]

theorem filter_map_keys {el₁ el₂ : List (List Char × ClassInfo)}
    (h : el₁.map Prod.fst = el₂.map Prod.fst) (p : List Char → Bool) :
    (el₁.filter (fun e => p e.1)).map Prod.fst =
      (el₂.filter (fun e => p e.1)).map Prod.fst := by
  induction el₁ generalizing el₂ with
  | nil =>
    cases el₂ with
    | nil => rfl
    | cons b t => cases h
  | cons a t₁ ih =>
    cases el₂ with
    | nil => cases h
    | cons b t₂ =>
      rw [List.map_cons, List.map_cons] at h
      injection h with hab ht
      rw [List.filter_cons, List.filter_cons, hab]
      by_cases hp : p b.1 = true
      · simp only [hp, if_true, List.map_cons, hab]
        rw [ih ht]
      · simp only [hp, if_false, Bool.false_eq_true]
        exact ih ht

theorem lowered_names_eq_keys {el : List (List Char × ClassInfo)}
    (hK : ∀ p ∈ el, p.1 = lowerStr p.2.name) (p : List Char → Bool) :
    ((el.filter (fun e => p e.1)).map (fun e => e.2.name)).map lowerStr =
      (el.filter (fun e => p e.1)).map Prod.fst := by
  rw [List.map_map]
  apply List.map_congr_left
  intro q hq
  exact (hK q (List.mem_of_mem_filter hq)).symm

/-- Claim C3 (amended): only `compare_puml_with_json` aligns classes
case-insensitively.  There, the matched/missing/extra class outcome depends
only on the lowercased class names: for models equal up to the letter case
of their class names (and with equal attributes), the matched count and the
lowercased missing/extra name lists coincide.  `compare_puml_with_puml`
compares class names case-sensitively (no lowercase index is built), so
changing only the case of a name can change the outcome there (see the
counterexample). -/
theorem claim_C3_json_case_insensitivity (e₁ e₂ s₁ s₂ : List ClassInfo)
    (ct att : ℚ) (he : List.Forall₂ CaseEq e₁ e₂) (hs : List.Forall₂ CaseEq s₁ s₂) :
    (classesOf (compare_puml_with_json e₁ s₁ ct att)).map (fun c => c.matched) =
      (classesOf (compare_puml_with_json e₂ s₂ ct att)).map (fun c => c.matched) ∧
    (classDiffOf (compare_puml_with_json e₁ s₁ ct att)).map
        (fun d => (d.missing.map lowerStr, d.extra.map lowerStr)) =
      (classDiffOf (compare_puml_with_json e₂ s₂ ct att)).map
        (fun d => (d.missing.map lowerStr, d.extra.map lowerStr)) := by
  cases he with
  | nil => exact ⟨rfl, rfl⟩
  | cons hc hrest =>
    rename_i c₁ c₂ t₁ t₂
    have he' : List.Forall₂ CaseEq (c₁ :: t₁) (c₂ :: t₂) := List.Forall₂.cons hc hrest
    have hel := buildLow_keys he'
    have hsl := buildLow_keys hs
    have hcp := jsonClassPhase_keys hel hsl ct
    constructor
    · simp only [compare_puml_with_json, classesOf, Option.map_some']
      rw [hcp]
    · simp only [compare_puml_with_json, classDiffOf, Option.map_some']
      rw [hcp]
      rw [lowered_names_eq_keys buildLow_key_name
          (fun k => decide (lookupMapping (jsonClassPhase (buildLow (c₂ :: t₂))
            (buildLow s₂) ct).class_mapping k = none)),
        lowered_names_eq_keys buildLow_key_name
          (fun k => decide (lookupMapping (jsonClassPhase (buildLow (c₂ :: t₂))
            (buildLow s₂) ct).class_mapping k = none)),
        lowered_names_eq_keys buildLow_key_name
          (fun k => !((jsonClassPhase (buildLow (c₂ :: t₂))
            (buildLow s₂) ct).matched_student_lows.contains (some k))),
        lowered_names_eq_keys buildLow_key_name
          (fun k => !((jsonClassPhase (buildLow (c₂ :: t₂))
            (buildLow s₂) ct).matched_student_lows.contains (some k))),
        filter_map_keys hel
          (fun k => decide (lookupMapping (jsonClassPhase (buildLow (c₂ :: t₂))
            (buildLow s₂) ct).class_mapping k = none)),
        filter_map_keys hsl
          (fun k => !((jsonClassPhase (buildLow (c₂ :: t₂))
            (buildLow s₂) ct).matched_student_lows.contains (some k)))]

/-- Witness for claim C3 (amended): the same model with one class name
recased. -/
theorem claim_C3_witness :
    (classesOf (compare_puml_with_json [⟨"Abcde".toList, [], []⟩]
        [⟨"abcde".toList, [], []⟩] (9 / 10) (17 / 20))).map (fun c => c.matched) =
      (classesOf (compare_puml_with_json [⟨"abcde".toList, [], []⟩]
        [⟨"abcde".toList, [], []⟩] (9 / 10) (17 / 20))).map (fun c => c.matched) ∧
    (classDiffOf (compare_puml_with_json [⟨"Abcde".toList, [], []⟩]
        [⟨"abcde".toList, [], []⟩] (9 / 10) (17 / 20))).map
        (fun d => (d.missing.map lowerStr, d.extra.map lowerStr)) =
      (classDiffOf (compare_puml_with_json [⟨"abcde".toList, [], []⟩]
        [⟨"abcde".toList, [], []⟩] (9 / 10) (17 / 20))).map
        (fun d => (d.missing.map lowerStr, d.extra.map lowerStr)) :=
  claim_C3_json_case_insensitivity _ _ _ _ (9 / 10) (17 / 20)
    (List.Forall₂.cons ⟨by decide, by decide⟩ List.Forall₂.nil)
    (List.Forall₂.cons ⟨by decide, by decide⟩ List.Forall₂.nil)

theorem ratio_Abcde_Abcde : smRatio "Abcde".toList "Abcde".toList = 1 := by
  rw [smRatio_eval _ _ 5 5 5 (by decide) (by decide) (by decide) (by decide)]
  norm_num

theorem ratio_Abcde_abcde : smRatio "Abcde".toList "abcde".toList = 4 / 5 := by
  rw [smRatio_eval _ _ 4 5 5 (by decide) (by decide) (by decide) (by decide)]
  norm_num

theorem c3_phase_same :
    pumlClassPhase [⟨"Abcde".toList, [], []⟩] [⟨"Abcde".toList, [], []⟩] (9 / 10) =
      ⟨1, ["Abcde".toList], []⟩ := by
  simp only [pumlClassPhase, List.foldl_cons, List.foldl_nil, bestStudentPuml]
  rw [ratio_Abcde_Abcde]
  rw [if_pos (by norm_num : (1 : ℚ) ≥ 9 / 10 ∧ (1 : ℚ) > 0)]
  simp

theorem c3_phase_recased :
    pumlClassPhase [⟨"Abcde".toList, [], []⟩] [⟨"abcde".toList, [], []⟩] (9 / 10) =
      ⟨0, [], ["Abcde".toList]⟩ := by
  simp only [pumlClassPhase, List.foldl_cons, List.foldl_nil, bestStudentPuml]
  rw [ratio_Abcde_abcde]
  rw [if_neg (by norm_num : ¬ ((4 / 5 : ℚ) ≥ 9 / 10 ∧ (4 / 5 : ℚ) > 0))]
  simp

/-- Counterexample to claim C3: in `compare_puml_with_puml`, recasing the
candidate class name `Abcde` to `abcde` (identical lowercased names)
changes the matched-class count from 1 to 0 — that variant compares names
case-sensitively (ratio of `Abcde` vs `abcde` is 0.8 < 0.9). -/
theorem claim_C3_counterexample :
    (classesOf (compare_puml_with_puml [⟨"Abcde".toList, [], []⟩]
        [⟨"Abcde".toList, [], []⟩] (9 / 10) (17 / 20))).map (fun c => c.matched) =
      some 1 ∧
    (classesOf (compare_puml_with_puml [⟨"Abcde".toList, [], []⟩]
        [⟨"abcde".toList, [], []⟩] (9 / 10) (17 / 20))).map (fun c => c.matched) =
      some 0 ∧
    lowerStr "Abcde".toList = lowerStr "abcde".toList := by
  refine ⟨?_, ?_, by decide⟩
  · simp only [compare_puml_with_puml, classesOf, Option.map_some']
    rw [c3_phase_same]
  · simp only [compare_puml_with_puml, classesOf, Option.map_some']
    rw [c3_phase_recased]

end Comparator
